import Mathlib

/-!
Shallow embedding of the NATTEN CPU naive 3D neighborhood-neighborhood kernel,
from src/csrc/include/natten/cpu/naive/neighborhood_neighborhood_3d.hpp
(struct NeighborhoodNeighborhood3D, member launch).

Buffers are modelled as total functions from flat Int offsets to a scalar type.
Machine integers are modelled as Int: none of the proved properties concerns
wraparound, and the repository treats the index arithmetic as exact.
The at::parallel_for dispatch is modelled as a sequential left fold over the
flattened coordinate range; per-coordinate output values are unaffected by the
chunking because the writes are disjoint (a fact proved below).

The helpers get_window_start and get_window_end live in
natten/cpu/naive/natten_cpu_commons.h, which is not part of the sources here;
they are modelled from the specification text (section 4.1) and marked so.
-/

/-- Parameters of NeighborhoodNeighborhood3D::launch; field names follow the
source parameter names. -/
structure NNParams where
  depth : Int
  height : Int
  width : Int
  heads : Int
  kernel_size_0 : Int
  kernel_size_1 : Int
  kernel_size_2 : Int
  dilation_0 : Int
  dilation_1 : Int
  dilation_2 : Int
  dim : Int
  batch_size : Int
  weights_stride_0 : Int
  weights_stride_1 : Int
  weights_stride_2 : Int
  weights_stride_3 : Int
  weights_stride_4 : Int
  is_causal_0 : Bool
  is_causal_1 : Bool
  is_causal_2 : Bool

/-- Modelled from the spec: the Window Boundary Resolver get_window_start is
declared in natten/cpu/naive/natten_cpu_commons.h, which is absent from the
sources. Following spec section 4.1: non-causal windows are nominally centered
at the position, with per-axis radius neighborhood_size scaled by dilation;
near the low end of the axis the window is shifted up to the smallest
nonnegative sample with the residue of the position modulo dilation, and near
the high end it is shifted down by the overflow, in whole dilation steps so
the stepped samples still hit the position, never below that same smallest
residue. Causal windows reach back at most (kernel_size - 1) * dilation from
the position and are clamped to stay nonnegative while keeping the residue of
the position modulo dilation. -/
def get_window_start (index length kernel_size neighborhood_size dilation : Int)
    (is_causal : Bool) : Int :=
  if is_causal then
    max (index - (kernel_size - 1) * dilation) (index % dilation)
  else
    if index - neighborhood_size * dilation < 0 then
      index % dilation
    else if index + neighborhood_size * dilation ≥ length then
      max (index % dilation)
        (index - neighborhood_size * dilation -
          ((index + neighborhood_size * dilation - (length - 1) + dilation - 1) /
              dilation) * dilation)
    else
      index - neighborhood_size * dilation

/-- Modelled from the spec: the Window Boundary Resolver get_window_end is
declared in natten/cpu/naive/natten_cpu_commons.h, which is absent from the
sources. Following spec section 4.1: for non-causal windows the exclusive end
is the window start plus kernel_size * dilation, clamped to the axis length
(spec scenario 4); for causal windows the window ends right after the position
itself, so that the position is the rightmost sampled element. -/
def get_window_end (index start length kernel_size neighborhood_size dilation : Int)
    (is_causal : Bool) : Int :=
  if is_causal then
    min length (index + 1)
  else
    min length (start + kernel_size * dilation)

/-- One strided C loop, for (x = lo; x < hi; x += step), as the list of visited
values. The fuel argument makes the recursion structural; strideLoop below
supplies enough fuel that it never runs out. -/
def strideLoopAux (step hi : Int) : Nat → Int → List Int
  | 0, _ => []
  | fuel + 1, lo => if lo < hi then lo :: strideLoopAux step hi fuel (lo + step) else []

/-- The list of values visited by the C loop head for (x = lo; x < hi; x += step),
for a positive step. -/
def strideLoop (lo hi step : Int) : List Int :=
  if 0 < step then strideLoopAux step hi (hi - lo).toNat lo else []

/-- Derived dense value strides, source lines 123 to 127: channels fastest. -/
def values_stride_4 (p : NNParams) : Int := p.dim

def values_stride_3 (p : NNParams) : Int := p.width * values_stride_4 p

def values_stride_2 (p : NNParams) : Int := p.height * values_stride_3 p

def values_stride_1 (p : NNParams) : Int := p.depth * values_stride_2 p

def values_stride_0 (p : NNParams) : Int := p.heads * values_stride_1 p

/-- Total kernel volume, the extent of the last weight dimension. -/
def kernel_volume (p : NNParams) : Int :=
  p.kernel_size_0 * p.kernel_size_1 * p.kernel_size_2

/-- Source neighborhood sizes, lines 120 to 122: kernel_size / 2. -/
def neighborhood_size_0 (p : NNParams) : Int := p.kernel_size_0 / 2

def neighborhood_size_1 (p : NNParams) : Int := p.kernel_size_1 / 2

def neighborhood_size_2 (p : NNParams) : Int := p.kernel_size_2 / 2

/-- Window start along axis 0 (depth), as called at source lines 145 to 151. -/
def window_start_0 (p : NNParams) (k : Int) : Int :=
  get_window_start k p.depth p.kernel_size_0 (neighborhood_size_0 p) p.dilation_0
    p.is_causal_0

/-- Window start along axis 1 (height), as called at source lines 152 to 158. -/
def window_start_1 (p : NNParams) (i : Int) : Int :=
  get_window_start i p.height p.kernel_size_1 (neighborhood_size_1 p) p.dilation_1
    p.is_causal_1

/-- Window start along axis 2 (width), as called at source lines 159 to 165. -/
def window_start_2 (p : NNParams) (j : Int) : Int :=
  get_window_start j p.width p.kernel_size_2 (neighborhood_size_2 p) p.dilation_2
    p.is_causal_2

/-- Window end along axis 0 (depth), as called at source lines 166 to 173. -/
def window_end_0 (p : NNParams) (k : Int) : Int :=
  get_window_end k (window_start_0 p k) p.depth p.kernel_size_0
    (neighborhood_size_0 p) p.dilation_0 p.is_causal_0

/-- Window end along axis 1 (height), as called at source lines 174 to 181. -/
def window_end_1 (p : NNParams) (i : Int) : Int :=
  get_window_end i (window_start_1 p i) p.height p.kernel_size_1
    (neighborhood_size_1 p) p.dilation_1 p.is_causal_1

/-- Window end along axis 2 (width), as called at source lines 182 to 189. -/
def window_end_2 (p : NNParams) (j : Int) : Int :=
  get_window_end j (window_start_2 p j) p.width p.kernel_size_2
    (neighborhood_size_2 p) p.dilation_2 p.is_causal_2

/-- The linearization of the three per-axis offsets from window start divided by
dilation, row-major with axis 0 slowest, source lines 202 to 206. -/
def enum (p : NNParams) (nk ni nj xk xi xj : Int) : Int :=
  ((xk - nk) / p.dilation_0) * (p.kernel_size_1 * p.kernel_size_2) +
    ((xi - ni) / p.dilation_1) * p.kernel_size_2 +
    (xj - nj) / p.dilation_2

/-- Flat offset of a weight element: the caller-given strides for the five
leading dimensions plus the enum sub-index with no stride factor, source
lines 192 to 194 and 202 to 206. -/
def weightsIndex (p : NNParams) (b h k i j e : Int) : Int :=
  b * p.weights_stride_0 + h * p.weights_stride_1 + k * p.weights_stride_2 +
    i * p.weights_stride_3 + j * p.weights_stride_4 + e

/-- Flat offset of a value element, dense derived strides, source lines
195 to 196 and 200 to 201. -/
def valuesIndex (p : NNParams) (b h d xk xi xj : Int) : Int :=
  b * values_stride_0 p + h * values_stride_1 p + d + xk * values_stride_2 p +
    xi * values_stride_3 p + xj * values_stride_4 p

/-- Flat offset of an output element, dense derived strides, source lines
211 to 213. -/
def linearIndex (p : NNParams) (b h k i j d : Int) : Int :=
  b * values_stride_0 p + h * values_stride_1 p + k * values_stride_2 p +
    i * values_stride_3 p + j * values_stride_4 p + d

/-- The accumulation for one output element: the triple nested window loop of
source lines 190 to 210, threading one accumulator initialized to zero. -/
def innerSum {α : Type} [Zero α] [Add α] [Mul α] (weights values : Int → α)
    (p : NNParams) (b h k i j d : Int) : α :=
  (strideLoop (window_start_0 p k) (window_end_0 p k) p.dilation_0).foldl
    (fun acc xk =>
      (strideLoop (window_start_1 p i) (window_end_1 p i) p.dilation_1).foldl
        (fun acc2 xi =>
          (strideLoop (window_start_2 p j) (window_end_2 p j) p.dilation_2).foldl
            (fun acc3 xj =>
              acc3 +
                weights (weightsIndex p b h k i j
                  (enum p (window_start_0 p k) (window_start_1 p i)
                    (window_start_2 p j) xk xi xj)) *
                  values (valuesIndex p b h d xk xi xj))
            acc2)
        acc)
    (0 : α)

/-- One decomposed output coordinate. -/
structure Coord5 where
  b : Int
  h : Int
  k : Int
  i : Int
  j : Int
  deriving DecidableEq

/-- The div and mod decomposition of a flat index, source lines 134 to 144:
j fastest, then i, k, h, b. -/
def decompose (p : NNParams) (x : Int) : Coord5 :=
  let indtmp1 := x / p.width
  let j := x - indtmp1 * p.width
  let indtmp2 := indtmp1 / p.height
  let i := indtmp1 - indtmp2 * p.height
  let indtmp1b := indtmp2
  let indtmp2b := indtmp1b / p.depth
  let k := indtmp1b - indtmp2b * p.depth
  let indtmp1c := indtmp2b
  let indtmp2c := indtmp1c / p.heads
  let h := indtmp1c - indtmp2c * p.heads
  let b := indtmp2c
  ⟨b, h, k, i, j⟩

/-- Row-major flattening of a coordinate, the inverse of decompose: the radix
order matches the division chain of the source. -/
def flatten (p : NNParams) (b h k i j : Int) : Int :=
  (((b * p.heads + h) * p.depth + k) * p.height + i) * p.width + j

/-- Extent of the flattened coordinate range, source line 130. -/
def totalRange (p : NNParams) : Int :=
  p.batch_size * p.heads * p.depth * p.height * p.width

/-- The whole kernel, source lines 128 to 217: iterate the flattened coordinate
range, decompose each flat index, and for each channel write the accumulated
window sum to the output buffer. -/
def launch {α : Type} [Zero α] [Add α] [Mul α] (weights values out0 : Int → α)
    (p : NNParams) : Int → α :=
  (List.range (totalRange p).toNat).foldl
    (fun out (x : Nat) =>
      let c := decompose p (x : Int)
      (List.range p.dim.toNat).foldl
        (fun out2 (dch : Nat) =>
          Function.update out2 (linearIndex p c.b c.h c.k c.i c.j (dch : Int))
            (innerSum weights values p c.b c.h c.k c.i c.j (dch : Int)))
        out)
    out0

/-- The set of positions sampled from a window: lo up to hi exclusive, keeping
the residue of lo modulo the step. Specification-side counterpart of
strideLoop. -/
def stepFinset (lo hi step : Int) : Finset Int :=
  (Finset.Ico lo hi).filter (fun x => (x - lo) % step = 0)

/-- A bounds-checked weight read: the logical coordinate is checked against the
weight tensor extents, with the last sub-index checked against kernel_volume;
in range it reads the same flat offset the kernel reads. -/
def readWeight {α : Type} (weights : Int → α) (p : NNParams)
    (b h k i j e : Int) : Option α :=
  if 0 ≤ b ∧ b < p.batch_size ∧ 0 ≤ h ∧ h < p.heads ∧ 0 ≤ k ∧ k < p.depth ∧
      0 ≤ i ∧ i < p.height ∧ 0 ≤ j ∧ j < p.width ∧ 0 ≤ e ∧ e < kernel_volume p then
    some (weights (weightsIndex p b h k i j e))
  else
    none

/-- A bounds-checked value read: the logical coordinate is checked against the
value tensor extents; in range it reads the same flat offset the kernel
reads. -/
def readValue {α : Type} (values : Int → α) (p : NNParams)
    (b h d xk xi xj : Int) : Option α :=
  if 0 ≤ b ∧ b < p.batch_size ∧ 0 ≤ h ∧ h < p.heads ∧ 0 ≤ xk ∧ xk < p.depth ∧
      0 ≤ xi ∧ xi < p.height ∧ 0 ≤ xj ∧ xj < p.width ∧ 0 ≤ d ∧ d < p.dim then
    some (values (valuesIndex p b h d xk xi xj))
  else
    none

/-- The accumulation for one output element with every read bounds-checked:
identical loop structure to innerSum, but any out-of-range logical index makes
the whole accumulation return none. -/
def innerSumChecked {α : Type} [Zero α] [Add α] [Mul α] (weights values : Int → α)
    (p : NNParams) (b h k i j d : Int) : Option α :=
  (strideLoop (window_start_0 p k) (window_end_0 p k) p.dilation_0).foldl
    (fun acc xk =>
      (strideLoop (window_start_1 p i) (window_end_1 p i) p.dilation_1).foldl
        (fun acc2 xi =>
          (strideLoop (window_start_2 p j) (window_end_2 p j) p.dilation_2).foldl
            (fun acc3 xj =>
              acc3.bind (fun a =>
                (readWeight weights p b h k i j
                    (enum p (window_start_0 p k) (window_start_1 p i)
                      (window_start_2 p j) xk xi xj)).bind (fun w =>
                  (readValue values p b h d xk xi xj).map (fun v => a + w * v))))
            acc2)
        acc)
    (some (0 : α))

/-- The row-major list of the weight value products accumulated for one output
element, axis 0 outermost and axis 2 innermost, in loop order. -/
def productList {α : Type} [Mul α] (weights values : Int → α) (p : NNParams)
    (b h k i j d : Int) : List α :=
  (strideLoop (window_start_0 p k) (window_end_0 p k) p.dilation_0).flatMap
    (fun xk =>
      (strideLoop (window_start_1 p i) (window_end_1 p i) p.dilation_1).flatMap
        (fun xi =>
          (strideLoop (window_start_2 p j) (window_end_2 p j) p.dilation_2).map
            (fun xj =>
              weights (weightsIndex p b h k i j
                (enum p (window_start_0 p k) (window_start_1 p i)
                  (window_start_2 p j) xk xi xj)) *
                values (valuesIndex p b h d xk xi xj))))

/-- Concrete test weights buffer: the flat offset itself. -/
def wId : Int → Int := fun n => n

/-- Concrete test values buffer: all ones. -/
def vOne : Int → Int := fun _ => (1 : Int)

/-- Concrete test output buffer: all zeros. -/
def outZero : Int → Int := fun _ => (0 : Int)

/-- Concrete small parameter set: one batch, one head, extents 2 x 2 x 2, one
channel, kernel sizes 1, dilations 1, non-causal, dense weight strides. -/
def pA : NNParams :=
  { depth := 2, height := 2, width := 2, heads := 1,
    kernel_size_0 := 1, kernel_size_1 := 1, kernel_size_2 := 1,
    dilation_0 := 1, dilation_1 := 1, dilation_2 := 1,
    dim := 1, batch_size := 1,
    weights_stride_0 := 8, weights_stride_1 := 8, weights_stride_2 := 4,
    weights_stride_3 := 2, weights_stride_4 := 1,
    is_causal_0 := false, is_causal_1 := false, is_causal_2 := false }

/-- Concrete test weights buffer that agrees with wId only at offset 0. -/
def wAlt : Int → Int := fun n => if n = 0 then 0 else 99

/-! ### Loop list lemmas -/

theorem strideLoopAux_congr {step hi : Int} (hstep : 0 < step) :
    ∀ f1 : Nat, ∀ f2 : Nat, ∀ lo : Int, (hi - lo).toNat ≤ f1 → (hi - lo).toNat ≤ f2 →
      strideLoopAux step hi f1 lo = strideLoopAux step hi f2 lo := by
  intro f1
  induction f1 with
  | zero =>
    intro f2 lo h1 h2
    have hlt : ¬ lo < hi := by omega
    cases f2 with
    | zero => rfl
    | succ n => simp [strideLoopAux, hlt]
  | succ n ih =>
    intro f2 lo h1 h2
    cases f2 with
    | zero =>
      have hlt : ¬ lo < hi := by omega
      simp [strideLoopAux, hlt]
    | succ m =>
      by_cases hlt : lo < hi
      · simp only [strideLoopAux, hlt, if_true]
        have hrec := ih m (lo + step) (by omega) (by omega)
        rw [hrec]
      · simp [strideLoopAux, hlt]

theorem strideLoop_unfold (lo hi step : Int) (hstep : 0 < step) :
    strideLoop lo hi step =
      if lo < hi then lo :: strideLoop (lo + step) hi step else [] := by
  by_cases hlt : lo < hi
  · simp only [strideLoop, hstep, if_true, hlt]
    have h1 : (hi - lo).toNat = ((hi - lo).toNat - 1) + 1 := by omega
    rw [h1]
    simp only [strideLoopAux, hlt, if_true]
    have h2 := @strideLoopAux_congr step hi hstep ((hi - lo).toNat - 1)
      ((hi - (lo + step)).toNat) (lo + step) (by omega) (by omega)
    rw [h2]
  · simp only [strideLoop, hstep, if_true, hlt, if_false]
    have h0 : (hi - lo).toNat = 0 := by omega
    rw [h0]
    rfl

theorem mem_strideLoopAux {step hi x : Int} (hstep : 0 < step) :
    ∀ fuel : Nat, ∀ lo : Int, (hi - lo).toNat ≤ fuel →
      (x ∈ strideLoopAux step hi fuel lo ↔ lo ≤ x ∧ x < hi ∧ step ∣ (x - lo)) := by
  intro fuel
  induction fuel with
  | zero =>
    intro lo hf
    simp only [strideLoopAux, List.not_mem_nil, false_iff]
    intro hc
    omega
  | succ n ih =>
    intro lo hf
    by_cases hlt : lo < hi
    · simp only [strideLoopAux, hlt, if_true, List.mem_cons]
      rw [ih (lo + step) (by omega)]
      constructor
      · rintro (rfl | ⟨h1, h2, c, hc⟩)
        · exact ⟨le_refl _, hlt, ⟨0, by ring⟩⟩
        · exact ⟨by omega, h2, ⟨c + 1, by linarith⟩⟩
      · rintro ⟨h1, h2, c, hc⟩
        have hc0 : 0 ≤ c := by nlinarith
        by_cases hcz : c = 0
        · left
          rw [hcz, mul_zero] at hc
          omega
        · right
          have hc1 : 1 ≤ c := by omega
          have : step * 1 ≤ step * c := by
            exact mul_le_mul_of_nonneg_left hc1 (le_of_lt hstep)
          refine ⟨by nlinarith, h2, ⟨c - 1, by linarith⟩⟩
    · simp only [strideLoopAux, hlt, if_false, List.not_mem_nil, false_iff]
      intro hc
      omega

theorem mem_strideLoop {lo hi step x : Int} (hstep : 0 < step) :
    x ∈ strideLoop lo hi step ↔ lo ≤ x ∧ x < hi ∧ step ∣ (x - lo) := by
  simp only [strideLoop, hstep, if_true]
  exact mem_strideLoopAux hstep (hi - lo).toNat lo (le_refl _)

theorem length_strideLoopAux {step hi : Int} (hstep : 0 < step) :
    ∀ fuel : Nat, ∀ lo : Int, (hi - lo).toNat ≤ fuel →
      (strideLoopAux step hi fuel lo).length = ((hi - lo + step - 1) / step).toNat := by
  intro fuel
  induction fuel with
  | zero =>
    intro lo hf
    have h2 : (hi - lo + step - 1) / step < 1 :=
      (Int.ediv_lt_iff_lt_mul hstep).mpr (by omega)
    simp only [strideLoopAux, List.length_nil]
    generalize hq : (hi - lo + step - 1) / step = q at h2
    omega
  | succ n ih =>
    intro lo hf
    by_cases hlt : lo < hi
    · simp only [strideLoopAux, hlt, if_true, List.length_cons]
      rw [ih (lo + step) (by omega)]
      have h1 : hi - (lo + step) + step - 1 = hi - lo - 1 := by ring
      rw [h1]
      have h2 : hi - lo + step - 1 = (hi - lo - 1) + 1 * step := by ring
      rw [h2, Int.add_mul_ediv_right _ _ (by omega : step ≠ 0)]
      have h3 : 0 ≤ (hi - lo - 1) / step := Int.ediv_nonneg (by omega) (by omega)
      generalize hq : (hi - lo - 1) / step = q at h3 ⊢
      omega
    · have h2 : (hi - lo + step - 1) / step < 1 :=
        (Int.ediv_lt_iff_lt_mul hstep).mpr (by omega)
      simp only [strideLoopAux, hlt, if_false, List.length_nil]
      generalize hq : (hi - lo + step - 1) / step = q at h2
      omega

theorem length_strideLoop (lo hi step : Int) (hstep : 0 < step) :
    (strideLoop lo hi step).length = ((hi - lo + step - 1) / step).toNat := by
  simp only [strideLoop, hstep, if_true]
  exact length_strideLoopAux hstep (hi - lo).toNat lo (le_refl _)

theorem nodup_strideLoopAux {step hi : Int} (hstep : 0 < step) :
    ∀ fuel : Nat, ∀ lo : Int, (hi - lo).toNat ≤ fuel →
      (strideLoopAux step hi fuel lo).Nodup := by
  intro fuel
  induction fuel with
  | zero =>
    intro lo hf
    simp [strideLoopAux]
  | succ n ih =>
    intro lo hf
    by_cases hlt : lo < hi
    · simp only [strideLoopAux, hlt, if_true, List.nodup_cons]
      refine ⟨?_, ih (lo + step) (by omega)⟩
      intro hmem
      have := (mem_strideLoopAux hstep n (lo + step) (by omega)).mp hmem
      omega
    · simp [strideLoopAux, hlt]

theorem nodup_strideLoop (lo hi step : Int) (hstep : 0 < step) :
    (strideLoop lo hi step).Nodup := by
  simp only [strideLoop, hstep, if_true]
  exact nodup_strideLoopAux hstep (hi - lo).toNat lo (le_refl _)

theorem stepFinset_eq_toFinset (lo hi step : Int) (hstep : 0 < step) :
    stepFinset lo hi step = (strideLoop lo hi step).toFinset := by
  apply Finset.ext
  intro x
  simp only [stepFinset, Finset.mem_filter, Finset.mem_Ico, List.mem_toFinset]
  rw [mem_strideLoop hstep]
  constructor
  · rintro ⟨⟨h1, h2⟩, h3⟩
    exact ⟨h1, h2, Int.dvd_of_emod_eq_zero h3⟩
  · rintro ⟨h1, h2, h3⟩
    exact ⟨⟨h1, h2⟩, Int.emod_eq_zero_of_dvd h3⟩

/-! ### Window Boundary Resolver lemmas -/

theorem emod_le_self (p d : Int) (hp : 0 ≤ p) (hd : 1 ≤ d) : p % d ≤ p := by
  have h1 : p % d = p - d * (p / d) := Int.emod_def p d
  have h2 : 0 ≤ p / d := Int.ediv_nonneg hp (by omega)
  nlinarith

theorem shift_le (p L ns d : Int) (hd : 1 ≤ d) (hns : 0 ≤ ns) (hpL : p < L) :
    ((p + ns * d - (L - 1) + d - 1) / d) * d ≤ ns * d := by
  have h1 : p + ns * d - (L - 1) + d - 1 ≤ ns * d + d - 1 := by omega
  have h2 : (p + ns * d - (L - 1) + d - 1) / d ≤ (ns * d + d - 1) / d :=
    Int.ediv_le_ediv (by omega) h1
  have h3 : (ns * d + d - 1) / d = ns := by
    have he : ns * d + d - 1 = (d - 1) + ns * d := by ring
    rw [he, Int.add_mul_ediv_right _ _ (by omega : d ≠ 0),
      Int.ediv_eq_zero_of_lt (by omega) (by omega)]
    omega
  have h4 : (p + ns * d - (L - 1) + d - 1) / d ≤ ns := by omega
  exact mul_le_mul_of_nonneg_right h4 (by omega)

theorem shift_nonneg (p L ns d : Int) (hd : 1 ≤ d) (hns : 0 ≤ ns) (hL : L ≤ p + ns * d) :
    0 ≤ ((p + ns * d - (L - 1) + d - 1) / d) * d := by
  have h1 : 0 ≤ (p + ns * d - (L - 1) + d - 1) / d := Int.ediv_nonneg (by omega) (by omega)
  exact mul_nonneg h1 (by omega)

theorem window_start_nonneg (p L k ns d : Int) (ic : Bool) (hd : 1 ≤ d) (hp : 0 ≤ p) :
    0 ≤ get_window_start p L k ns d ic := by
  have hmod : 0 ≤ p % d := Int.emod_nonneg p (by omega)
  unfold get_window_start
  split_ifs with h1 h2 h3
  · exact le_max_of_le_right hmod
  · exact hmod
  · exact le_max_of_le_left hmod
  · omega

theorem window_start_le (p L k ns d : Int) (ic : Bool) (hd : 1 ≤ d) (hp : 0 ≤ p)
    (hns : 0 ≤ ns) (hk : 1 ≤ k) : get_window_start p L k ns d ic ≤ p := by
  have hmod : p % d ≤ p := emod_le_self p d hp hd
  have hnsd : 0 ≤ ns * d := mul_nonneg hns (by omega)
  unfold get_window_start
  split_ifs with h1 h2 h3
  · apply max_le
    · nlinarith
    · exact hmod
  · exact hmod
  · apply max_le hmod
    have hs0 : 0 ≤ ((p + ns * d - (L - 1) + d - 1) / d) * d :=
      shift_nonneg p L ns d hd hns (by omega)
    omega
  · omega

theorem window_start_residue (p L k ns d : Int) (ic : Bool) (hd : 1 ≤ d) :
    d ∣ (p - get_window_start p L k ns d ic) := by
  have hmod : d ∣ (p - p % d) := by
    have h1 : p % d = p - d * (p / d) := Int.emod_def p d
    exact ⟨p / d, by omega⟩
  unfold get_window_start
  split_ifs with h1 h2 h3
  · rcases max_choice (p - (k - 1) * d) (p % d) with h | h <;> rw [h]
    · exact ⟨k - 1, by ring⟩
    · exact hmod
  · exact hmod
  · rcases max_choice (p % d)
      (p - ns * d - ((p + ns * d - (L - 1) + d - 1) / d) * d) with h | h <;> rw [h]
    · exact hmod
    · exact ⟨ns + (p + ns * d - (L - 1) + d - 1) / d, by ring⟩
  · exact ⟨ns, by ring⟩

theorem noncausal_start_ge (p L k ns d : Int) (hd : 1 ≤ d) (hp : 0 ≤ p) (hpL : p < L)
    (hns : 0 ≤ ns) : p - 2 * (ns * d) ≤ get_window_start p L k ns d false := by
  unfold get_window_start
  simp only [Bool.false_eq_true, if_false]
  split_ifs with h2 h3
  · have hdiv : p / d < ns := by
      rw [Int.ediv_lt_iff_lt_mul (by omega : (0 : Int) < d)]
      omega
    have h1 : p % d = p - d * (p / d) := Int.emod_def p d
    have h2b : d * (p / d) ≤ d * (ns - 1) :=
      mul_le_mul_of_nonneg_left (by omega) (by omega)
    nlinarith
  · have hs : ((p + ns * d - (L - 1) + d - 1) / d) * d ≤ ns * d :=
      shift_le p L ns d hd hns hpL
    have := le_max_right (p % d)
      (p - ns * d - ((p + ns * d - (L - 1) + d - 1) / d) * d)
    omega
  · have hnsd : 0 ≤ ns * d := mul_nonneg hns (by omega)
    omega

theorem noncausal_end_eq (p s L k ns d : Int) :
    get_window_end p s L k ns d false = min L (s + k * d) := by
  simp [get_window_end]

theorem causal_end_eq (p s L k ns d : Int) (hpL : p < L) :
    get_window_end p s L k ns d true = p + 1 := by
  simp only [get_window_end, if_true]
  omega

theorem causal_start_ge (p L k ns d : Int) :
    p - (k - 1) * d ≤ get_window_start p L k ns d true := by
  simp only [get_window_start, if_true]
  exact le_max_left _ _

theorem noncausal_lt_end (p L k ns d : Int) (hd : 1 ≤ d) (hp : 0 ≤ p) (hpL : p < L)
    (hns : 0 ≤ ns) (hk2 : k = 2 * ns + 1) :
    p < get_window_end p (get_window_start p L k ns d false) L k ns d false := by
  rw [noncausal_end_eq]
  have h1 := noncausal_start_ge p L k ns d hd hp hpL hns
  have h2 : 0 ≤ ns * d := mul_nonneg hns (by omega)
  have h3 : k * d = 2 * (ns * d) + d := by rw [hk2]; ring
  rw [lt_min_iff]
  constructor
  · exact hpL
  · omega

theorem noncausal_width_one (p L k ns : Int) (hp : 0 ≤ p) (hpL : p < L) (hns : 0 ≤ ns)
    (hk2 : k = 2 * ns + 1) (hkL : k ≤ L) :
    get_window_end p (get_window_start p L k ns 1 false) L k ns 1 false -
      get_window_start p L k ns 1 false = k := by
  rw [noncausal_end_eq]
  unfold get_window_start
  simp only [Bool.false_eq_true, if_false]
  have hmod : p % 1 = 0 := Int.emod_one p
  split_ifs with h2 h3
  · rw [hmod]
    have h5 : min L (0 + k * 1) = k := by
      rw [mul_one, zero_add]
      exact min_eq_right hkL
    omega
  · have h4 : p - ns * 1 - (p + ns * 1 - (L - 1) + 1 - 1) / 1 * 1 = L - 1 - 2 * ns := by
      rw [Int.ediv_one]
      ring
    rw [hmod, h4]
    have h5 : max 0 (L - 1 - 2 * ns) = L - 1 - 2 * ns := max_eq_right (by omega)
    rw [h5]
    have h6 : L - 1 - 2 * ns + k * 1 = L := by omega
    rw [h6, min_self]
    omega
  · have h6 : p - ns * 1 + k * 1 ≤ L := by omega
    rw [min_eq_right h6]
    omega

theorem window_sample_bounds (p L k ns d : Int) (ic : Bool) (x : Int)
    (hd : 1 ≤ d) (hp : 0 ≤ p) (hpL : p < L) (hns : 0 ≤ ns) (hk : 1 ≤ k)
    (hx : x ∈ strideLoop (get_window_start p L k ns d ic)
        (get_window_end p (get_window_start p L k ns d ic) L k ns d ic) d) :
    0 ≤ x ∧ x < L ∧ 0 ≤ (x - get_window_start p L k ns d ic) / d ∧
      (x - get_window_start p L k ns d ic) / d < k := by
  obtain ⟨h1, h2, h3⟩ := (mem_strideLoop (by omega : (0 : Int) < d)).mp hx
  have hs0 : 0 ≤ get_window_start p L k ns d ic := window_start_nonneg p L k ns d ic hd hp
  refine ⟨by omega, ?_, Int.ediv_nonneg (by omega) (by omega), ?_⟩
  · cases ic with
    | false =>
      rw [noncausal_end_eq] at h2
      omega
    | true =>
      rw [causal_end_eq p _ L k ns d hpL] at h2
      omega
  · cases ic with
    | false =>
      rw [noncausal_end_eq] at h2
      have h4 : x - get_window_start p L k ns d false < k * d := by omega
      rw [Int.ediv_lt_iff_lt_mul (by omega : (0 : Int) < d)]
      omega
    | true =>
      rw [causal_end_eq p _ L k ns d hpL] at h2
      have h5 := causal_start_ge p L k ns d
      have h6 : x - get_window_start p L k ns d true ≤ (k - 1) * d := by omega
      have h7 : (x - get_window_start p L k ns d true) / d ≤ ((k - 1) * d) / d :=
        Int.ediv_le_ediv (by omega) h6
      have h8 : ((k - 1) * d) / d = k - 1 := Int.mul_ediv_cancel _ (by omega)
      omega

/-! ### Claims about the Window Boundary Resolver (spec-modelled) -/

/-- C2 counterexample: at axis_extent 9, kernel_size 3, dilation 2, position 4
(the concrete numbers of spec scenario 4) the resolved non-causal window is
[2, 8), whose width 6 exceeds kernel_size = 3, refuting the claimed bound
window_end - window_start ≤ kernel_size for dilation ≥ 2. -/
theorem C2_counterexample :
    ¬ (get_window_end 4 (get_window_start 4 9 3 (3 / 2) 2 false) 9 3 (3 / 2) 2 false -
        get_window_start 4 9 3 (3 / 2) 2 false ≤ 3) := by decide

/-- C2 (amended): for a non-causal axis, an odd kernel_size at most the axis
extent, dilation ≥ 1 and a position in range, the resolved window satisfies
window_start ≤ position < window_end, window_start lies in [0, axis_extent),
window_end is at most axis_extent, the width is at most kernel_size * dilation,
and for dilation 1 the width is exactly kernel_size everywhere. -/
theorem C2_window_bounds (p L k d : Int) (hp : 0 ≤ p) (hpL : p < L) (hd : 1 ≤ d)
    (hk : 1 ≤ k) (hk2 : k = 2 * (k / 2) + 1) (hkL : k ≤ L) :
    get_window_start p L k (k / 2) d false ≤ p ∧
      p < get_window_end p (get_window_start p L k (k / 2) d false) L k (k / 2) d false ∧
      0 ≤ get_window_start p L k (k / 2) d false ∧
      get_window_start p L k (k / 2) d false < L ∧
      get_window_end p (get_window_start p L k (k / 2) d false) L k (k / 2) d false ≤ L ∧
      get_window_end p (get_window_start p L k (k / 2) d false) L k (k / 2) d false -
          get_window_start p L k (k / 2) d false ≤ k * d ∧
      (d = 1 →
        get_window_end p (get_window_start p L k (k / 2) d false) L k (k / 2) d false -
            get_window_start p L k (k / 2) d false = k) := by
  have hns : 0 ≤ k / 2 := by omega
  have hle := window_start_le p L k (k / 2) d false hd hp hns hk
  have hnn := window_start_nonneg p L k (k / 2) d false hd hp
  have hlt := noncausal_lt_end p L k (k / 2) d hd hp hpL hns hk2
  refine ⟨hle, hlt, hnn, by omega, ?_, ?_, ?_⟩
  · rw [noncausal_end_eq]
    exact min_le_left _ _
  · rw [noncausal_end_eq]
    have := min_le_right L (get_window_start p L k (k / 2) d false + k * d)
    omega
  · intro hd1
    subst hd1
    exact noncausal_width_one p L k (k / 2) hp hpL hns hk2 hkL

/-- C2 witness: the amended bounds at position 2 of a non-causal axis of
extent 5 with kernel_size 3 and dilation 1. -/
theorem C2_window_bounds_witness :
    ((0 : Int) ≤ 2 ∧ (2 : Int) < 5 ∧ (1 : Int) ≤ 1 ∧ (1 : Int) ≤ 3 ∧
        (3 : Int) = 2 * (3 / 2) + 1 ∧ (3 : Int) ≤ 5) ∧
      (get_window_start 2 5 3 (3 / 2) 1 false ≤ 2 ∧
        2 < get_window_end 2 (get_window_start 2 5 3 (3 / 2) 1 false) 5 3 (3 / 2) 1 false ∧
        0 ≤ get_window_start 2 5 3 (3 / 2) 1 false ∧
        get_window_start 2 5 3 (3 / 2) 1 false < 5 ∧
        get_window_end 2 (get_window_start 2 5 3 (3 / 2) 1 false) 5 3 (3 / 2) 1 false ≤ 5 ∧
        get_window_end 2 (get_window_start 2 5 3 (3 / 2) 1 false) 5 3 (3 / 2) 1 false -
            get_window_start 2 5 3 (3 / 2) 1 false ≤ 3 * 1 ∧
        ((1 : Int) = 1 →
          get_window_end 2 (get_window_start 2 5 3 (3 / 2) 1 false) 5 3 (3 / 2) 1 false -
              get_window_start 2 5 3 (3 / 2) 1 false = 3)) :=
  ⟨by decide,
    C2_window_bounds 2 5 3 1 (by decide) (by decide) (by decide) (by decide)
      (by decide) (by decide)⟩

/-- C3: for a causal axis and a position in range, the resolved window ends
right after the position (window_end - 1 = position); for dilation 1 the start
is max(0, position - kernel_size + 1); and under any dilation the sampled set
has at most kernel_size elements, contains the position, and no element after
it. -/
theorem C3_causal_window (p L k d : Int) (hp : 0 ≤ p) (hpL : p < L) (hd : 1 ≤ d)
    (hk : 1 ≤ k) :
    get_window_end p (get_window_start p L k (k / 2) d true) L k (k / 2) d true - 1 = p ∧
      (d = 1 → get_window_start p L k (k / 2) d true = max 0 (p - k + 1)) ∧
      (strideLoop (get_window_start p L k (k / 2) d true)
          (get_window_end p (get_window_start p L k (k / 2) d true) L k (k / 2) d true)
          d).length ≤ k.toNat ∧
      p ∈ strideLoop (get_window_start p L k (k / 2) d true)
          (get_window_end p (get_window_start p L k (k / 2) d true) L k (k / 2) d true)
          d ∧
      ∀ q ∈ strideLoop (get_window_start p L k (k / 2) d true)
          (get_window_end p (get_window_start p L k (k / 2) d true) L k (k / 2) d true)
          d, q ≤ p := by
  have hns : 0 ≤ k / 2 := by omega
  have hend := causal_end_eq p (get_window_start p L k (k / 2) d true) L k (k / 2) d hpL
  have hle := window_start_le p L k (k / 2) d true hd hp hns hk
  have hres := window_start_residue p L k (k / 2) d true hd
  have hge := causal_start_ge p L k (k / 2) d
  refine ⟨by omega, ?_, ?_, ?_, ?_⟩
  · intro hd1
    subst hd1
    simp only [get_window_start, if_true]
    rw [Int.emod_one]
    have he : p - (k - 1) * 1 = p - k + 1 := by ring
    rw [he, max_comm]
  · rw [length_strideLoop _ _ _ (by omega : (0 : Int) < d), hend]
    have h1 : p + 1 - get_window_start p L k (k / 2) d true + d - 1 ≤ k * d := by
      have : (k - 1) * d + d = k * d := by ring
      omega
    have h2 : (p + 1 - get_window_start p L k (k / 2) d true + d - 1) / d ≤ (k * d) / d :=
      Int.ediv_le_ediv (by omega) h1
    have h3 : (k * d) / d = k := Int.mul_ediv_cancel _ (by omega)
    generalize hq : (p + 1 - get_window_start p L k (k / 2) d true + d - 1) / d = q at h2
    omega
  · rw [mem_strideLoop (by omega : (0 : Int) < d), hend]
    exact ⟨hle, by omega, hres⟩
  · intro q hq
    obtain ⟨h1, h2, h3⟩ := (mem_strideLoop (by omega : (0 : Int) < d)).mp hq
    rw [hend] at h2
    omega

/-- C3 witness: causal axis of extent 5, kernel_size 3, dilation 1, position 4:
the window is [2, 5), ends at the position, and samples three positions. -/
theorem C3_causal_window_witness :
    ((0 : Int) ≤ 4 ∧ (4 : Int) < 5 ∧ (1 : Int) ≤ 1 ∧ (1 : Int) ≤ 3) ∧
      (get_window_end 4 (get_window_start 4 5 3 (3 / 2) 1 true) 5 3 (3 / 2) 1 true - 1 = 4 ∧
        ((1 : Int) = 1 → get_window_start 4 5 3 (3 / 2) 1 true = max 0 (4 - 3 + 1)) ∧
        (strideLoop (get_window_start 4 5 3 (3 / 2) 1 true)
            (get_window_end 4 (get_window_start 4 5 3 (3 / 2) 1 true) 5 3 (3 / 2) 1 true)
            1).length ≤ (3 : Int).toNat ∧
        4 ∈ strideLoop (get_window_start 4 5 3 (3 / 2) 1 true)
            (get_window_end 4 (get_window_start 4 5 3 (3 / 2) 1 true) 5 3 (3 / 2) 1 true)
            1 ∧
        ∀ q ∈ strideLoop (get_window_start 4 5 3 (3 / 2) 1 true)
            (get_window_end 4 (get_window_start 4 5 3 (3 / 2) 1 true) 5 3 (3 / 2) 1 true)
            1, q ≤ 4) :=
  ⟨by decide, C3_causal_window 4 5 3 1 (by decide) (by decide) (by decide) (by decide)⟩

/-- C4: stepping through [window_start, window_end) by dilation visits exactly
ceil((window_end - window_start) / dilation) positions, and never more than
kernel_size, in both causal modes. -/
theorem C4_sample_count (p L k d : Int) (ic : Bool) (hp : 0 ≤ p) (hpL : p < L)
    (hd : 1 ≤ d) (hk : 1 ≤ k) (hkL : k ≤ L) :
    (strideLoop (get_window_start p L k (k / 2) d ic)
        (get_window_end p (get_window_start p L k (k / 2) d ic) L k (k / 2) d ic)
        d).length =
      ((get_window_end p (get_window_start p L k (k / 2) d ic) L k (k / 2) d ic -
          get_window_start p L k (k / 2) d ic + d - 1) / d).toNat ∧
    (strideLoop (get_window_start p L k (k / 2) d ic)
        (get_window_end p (get_window_start p L k (k / 2) d ic) L k (k / 2) d ic)
        d).length ≤ k.toNat := by
  have hns : 0 ≤ k / 2 := by omega
  constructor
  · exact length_strideLoop _ _ _ (by omega : (0 : Int) < d)
  · rw [length_strideLoop _ _ _ (by omega : (0 : Int) < d)]
    have hwidth : get_window_end p (get_window_start p L k (k / 2) d ic) L k (k / 2) d ic -
        get_window_start p L k (k / 2) d ic ≤ k * d := by
      cases ic with
      | false =>
        rw [noncausal_end_eq]
        have := min_le_right L (get_window_start p L k (k / 2) d false + k * d)
        omega
      | true =>
        rw [causal_end_eq p _ L k (k / 2) d hpL]
        have hge := causal_start_ge p L k (k / 2) d
        have he : (k - 1) * d + d = k * d := by ring
        omega
    have h2 : (get_window_end p (get_window_start p L k (k / 2) d ic) L k (k / 2) d ic -
        get_window_start p L k (k / 2) d ic + d - 1) / d ≤ (k * d + d - 1) / d :=
      Int.ediv_le_ediv (by omega) (by omega)
    have h3 : (k * d + d - 1) / d = k := by
      have he : k * d + d - 1 = (d - 1) + k * d := by ring
      rw [he, Int.add_mul_ediv_right _ _ (by omega : d ≠ 0),
        Int.ediv_eq_zero_of_lt (by omega) (by omega)]
      omega
    generalize hq : (get_window_end p (get_window_start p L k (k / 2) d ic) L k (k / 2) d ic -
        get_window_start p L k (k / 2) d ic + d - 1) / d = q at h2
    omega

/-- C4 witness: non-causal axis of extent 9, kernel_size 3, dilation 2,
position 4 (spec scenario 4): the window [2, 8) stepped by 2 has exactly
ceil(6 / 2) = 3 samples. -/
theorem C4_sample_count_witness :
    ((0 : Int) ≤ 4 ∧ (4 : Int) < 9 ∧ (1 : Int) ≤ 2 ∧ (1 : Int) ≤ 3 ∧ (3 : Int) ≤ 9) ∧
      ((strideLoop (get_window_start 4 9 3 (3 / 2) 2 false)
          (get_window_end 4 (get_window_start 4 9 3 (3 / 2) 2 false) 9 3 (3 / 2) 2 false)
          2).length =
        ((get_window_end 4 (get_window_start 4 9 3 (3 / 2) 2 false) 9 3 (3 / 2) 2 false -
            get_window_start 4 9 3 (3 / 2) 2 false + 2 - 1) / 2).toNat ∧
      (strideLoop (get_window_start 4 9 3 (3 / 2) 2 false)
          (get_window_end 4 (get_window_start 4 9 3 (3 / 2) 2 false) 9 3 (3 / 2) 2 false)
          2).length ≤ (3 : Int).toNat) :=
  ⟨by decide,
    C4_sample_count 4 9 3 2 false (by decide) (by decide) (by decide) (by decide) (by decide)⟩

/-- C5 counterexample: with the even kernel_size 2 (allowed by the claim, which
only requires kernel_size ≤ axis_extent), extent 5, dilation 1, the non-causal
window resolved for position 4 is [2, 4), which does not contain the position:
the claimed containment window_start ≤ position < window_end fails. -/
theorem C5_counterexample :
    ¬ ((4 : Int) <
        get_window_end 4 (get_window_start 4 5 2 (2 / 2) 1 false) 5 2 (2 / 2) 1 false) := by
  decide

/-- C5 (amended): restricted to odd kernel_size, the sampled set along an axis
always contains the center position: the position is congruent to window_start
modulo dilation, window_start ≤ position < window_end, and the position is one
of the stepped samples, in both causal modes. -/
theorem C5_center_position (p L k d : Int) (ic : Bool) (hp : 0 ≤ p) (hpL : p < L)
    (hd : 1 ≤ d) (hk : 1 ≤ k) (hk2 : k = 2 * (k / 2) + 1) (hkL : k ≤ L) :
    d ∣ (p - get_window_start p L k (k / 2) d ic) ∧
      get_window_start p L k (k / 2) d ic ≤ p ∧
      p < get_window_end p (get_window_start p L k (k / 2) d ic) L k (k / 2) d ic ∧
      p ∈ strideLoop (get_window_start p L k (k / 2) d ic)
        (get_window_end p (get_window_start p L k (k / 2) d ic) L k (k / 2) d ic) d := by
  have hns : 0 ≤ k / 2 := by omega
  have hres := window_start_residue p L k (k / 2) d ic hd
  have hle := window_start_le p L k (k / 2) d ic hd hp hns hk
  have hlt : p < get_window_end p (get_window_start p L k (k / 2) d ic) L k (k / 2) d ic := by
    cases ic with
    | false => exact noncausal_lt_end p L k (k / 2) d hd hp hpL hns hk2
    | true =>
      rw [causal_end_eq p _ L k (k / 2) d hpL]
      omega
  refine ⟨hres, hle, hlt, ?_⟩
  rw [mem_strideLoop (by omega : (0 : Int) < d)]
  exact ⟨hle, hlt, hres⟩

/-- C5 witness: non-causal axis of extent 9, kernel_size 3, dilation 2,
position 4: the sampled set of window [2, 8) stepped by 2 contains 4. -/
theorem C5_center_position_witness :
    ((0 : Int) ≤ 4 ∧ (4 : Int) < 9 ∧ (1 : Int) ≤ 2 ∧ (1 : Int) ≤ 3 ∧
        (3 : Int) = 2 * (3 / 2) + 1 ∧ (3 : Int) ≤ 9) ∧
      ((2 : Int) ∣ (4 - get_window_start 4 9 3 (3 / 2) 2 false) ∧
        get_window_start 4 9 3 (3 / 2) 2 false ≤ 4 ∧
        4 < get_window_end 4 (get_window_start 4 9 3 (3 / 2) 2 false) 9 3 (3 / 2) 2 false ∧
        4 ∈ strideLoop (get_window_start 4 9 3 (3 / 2) 2 false)
          (get_window_end 4 (get_window_start 4 9 3 (3 / 2) 2 false) 9 3 (3 / 2) 2 false) 2) :=
  ⟨by decide,
    C5_center_position 4 9 3 2 false (by decide) (by decide) (by decide) (by decide)
      (by decide) (by decide)⟩

/-! ### Mixed radix index lemmas -/

theorem mixed_radix_step (m a r a2 r2 : Int) (hm : 0 < m) (hr : 0 ≤ r) (hrm : r < m)
    (hr2 : 0 ≤ r2) (hr2m : r2 < m) (heq : a * m + r = a2 * m + r2) :
    a = a2 ∧ r = r2 := by
  rcases lt_trichotomy a a2 with hlt | heqa | hgt
  · exfalso
    have h1 : (a + 1) * m ≤ a2 * m := mul_le_mul_of_nonneg_right (by omega) (by omega)
    have h2 : (a + 1) * m = a * m + m := by ring
    omega
  · subst heqa
    exact ⟨rfl, by omega⟩
  · exfalso
    have h1 : (a2 + 1) * m ≤ a * m := mul_le_mul_of_nonneg_right (by omega) (by omega)
    have h2 : (a2 + 1) * m = a2 * m + m := by ring
    omega

theorem ediv_horner (t r m : Int) (hm : 0 < m) (hr : 0 ≤ r) (hrm : r < m) :
    (t * m + r) / m = t ∧ t * m + r - ((t * m + r) / m) * m = r := by
  have h1 : (r + t * m) / m = r / m + t := Int.add_mul_ediv_right r t (by omega)
  have h2 : r / m = 0 := Int.ediv_eq_zero_of_lt hr hrm
  have h3 : (t * m + r) / m = t := by
    rw [show t * m + r = r + t * m by ring, h1, h2]
    omega
  refine ⟨h3, by rw [h3]; ring⟩

theorem ediv_decomp (t m M : Int) (hm : 0 < m) (ht : 0 ≤ t) (ht2 : t < M * m) :
    0 ≤ t / m ∧ t / m < M ∧ 0 ≤ t - t / m * m ∧ t - t / m * m < m ∧
      t / m * m + (t - t / m * m) = t := by
  have h1 : 0 ≤ t / m := Int.ediv_nonneg ht (by omega)
  have h2 : t / m < M := by
    rw [Int.ediv_lt_iff_lt_mul hm]
    exact ht2
  have h3 : t % m = t - m * (t / m) := Int.emod_def t m
  have h4 : 0 ≤ t % m := Int.emod_nonneg t (by omega)
  have h5 : t % m < m := Int.emod_lt_of_pos t hm
  have hmul : m * (t / m) = t / m * m := mul_comm _ _
  refine ⟨h1, h2, by omega, by omega, by ring⟩

theorem horner_step (t M r m : Int) (ht : 0 ≤ t) (ht2 : t < M) (hr : 0 ≤ r)
    (hrm : r < m) (hm : 0 < m) : 0 ≤ t * m + r ∧ t * m + r < M * m := by
  have h0 : 0 ≤ t * m := mul_nonneg ht (by omega)
  have hx : (t + 1) * m ≤ M * m := mul_le_mul_of_nonneg_right (by omega) (by omega)
  have hy : (t + 1) * m = t * m + m := by ring
  exact ⟨by omega, by omega⟩

theorem decompose_flatten (p : NNParams) (b h k i j : Int)
    (hh : 0 ≤ h) (hh2 : h < p.heads) (hk : 0 ≤ k) (hk2 : k < p.depth)
    (hi : 0 ≤ i) (hi2 : i < p.height) (hj : 0 ≤ j) (hj2 : j < p.width) :
    decompose p (flatten p b h k i j) = ⟨b, h, k, i, j⟩ := by
  have hW : (0 : Int) < p.width := by omega
  have hHe : (0 : Int) < p.height := by omega
  have hD : (0 : Int) < p.depth := by omega
  have hH : (0 : Int) < p.heads := by omega
  obtain ⟨e1, e1b⟩ :=
    ediv_horner (((b * p.heads + h) * p.depth + k) * p.height + i) j p.width hW hj hj2
  obtain ⟨e2, e2b⟩ := ediv_horner ((b * p.heads + h) * p.depth + k) i p.height hHe hi hi2
  obtain ⟨e3, e3b⟩ := ediv_horner (b * p.heads + h) k p.depth hD hk hk2
  obtain ⟨e4, e4b⟩ := ediv_horner b h p.heads hH hh hh2
  simp only [decompose, flatten]
  rw [Coord5.mk.injEq]
  rw [e1, e2, e3, e4]
  refine ⟨rfl, by omega, by omega, by omega, by omega⟩

theorem decompose_bounds (p : NNParams) (x : Int)
    (hB : 0 < p.batch_size) (hH : 0 < p.heads) (hD : 0 < p.depth)
    (hHe : 0 < p.height) (hW : 0 < p.width) (hx : 0 ≤ x) (hx2 : x < totalRange p) :
    0 ≤ (decompose p x).b ∧ (decompose p x).b < p.batch_size ∧
      0 ≤ (decompose p x).h ∧ (decompose p x).h < p.heads ∧
      0 ≤ (decompose p x).k ∧ (decompose p x).k < p.depth ∧
      0 ≤ (decompose p x).i ∧ (decompose p x).i < p.height ∧
      0 ≤ (decompose p x).j ∧ (decompose p x).j < p.width ∧
      flatten p (decompose p x).b (decompose p x).h (decompose p x).k
        (decompose p x).i (decompose p x).j = x := by
  unfold totalRange at hx2
  obtain ⟨a1, a2, a3, a4, a5⟩ :=
    ediv_decomp x p.width (p.batch_size * p.heads * p.depth * p.height) hW hx hx2
  obtain ⟨b1, b2, b3, b4, b5⟩ :=
    ediv_decomp (x / p.width) p.height (p.batch_size * p.heads * p.depth) hHe a1 a2
  obtain ⟨c1, c2, c3, c4, c5⟩ :=
    ediv_decomp (x / p.width / p.height) p.depth (p.batch_size * p.heads) hD b1 b2
  obtain ⟨d1, d2, d3, d4, d5⟩ :=
    ediv_decomp (x / p.width / p.height / p.depth) p.heads p.batch_size hH c1 c2
  simp only [decompose, flatten]
  refine ⟨d1, d2, d3, d4, c3, c4, b3, b4, a3, a4, ?_⟩
  rw [d5, c5, b5, a5]

theorem flatten_range (p : NNParams) (b h k i j : Int)
    (hb : 0 ≤ b) (hb2 : b < p.batch_size) (hh : 0 ≤ h) (hh2 : h < p.heads)
    (hk : 0 ≤ k) (hk2 : k < p.depth) (hi : 0 ≤ i) (hi2 : i < p.height)
    (hj : 0 ≤ j) (hj2 : j < p.width) :
    0 ≤ flatten p b h k i j ∧ flatten p b h k i j < totalRange p := by
  obtain ⟨s1, s2⟩ := horner_step b p.batch_size h p.heads hb hb2 hh hh2 (by omega)
  obtain ⟨s3, s4⟩ := horner_step (b * p.heads + h) (p.batch_size * p.heads) k p.depth
    s1 s2 hk hk2 (by omega)
  obtain ⟨s5, s6⟩ := horner_step ((b * p.heads + h) * p.depth + k)
    (p.batch_size * p.heads * p.depth) i p.height s3 s4 hi hi2 (by omega)
  obtain ⟨s7, s8⟩ := horner_step (((b * p.heads + h) * p.depth + k) * p.height + i)
    (p.batch_size * p.heads * p.depth * p.height) j p.width s5 s6 hj hj2 (by omega)
  unfold flatten totalRange
  exact ⟨s7, s8⟩

theorem linearIndex_eq_horner (p : NNParams) (b h k i j d : Int) :
    linearIndex p b h k i j d = flatten p b h k i j * p.dim + d := by
  unfold linearIndex flatten values_stride_0 values_stride_1 values_stride_2
    values_stride_3 values_stride_4
  ring

theorem linearIndex_inj (p : NNParams) (b h k i j d b2 h2 k2 i2 j2 d2 : Int)
    (hb : 0 ≤ b) (hb2 : b < p.batch_size) (hh : 0 ≤ h) (hh2 : h < p.heads)
    (hk : 0 ≤ k) (hk2 : k < p.depth) (hi : 0 ≤ i) (hi2 : i < p.height)
    (hj : 0 ≤ j) (hj2 : j < p.width) (hd : 0 ≤ d) (hd2 : d < p.dim)
    (gb : 0 ≤ b2) (gb2 : b2 < p.batch_size) (gh : 0 ≤ h2) (gh2 : h2 < p.heads)
    (gk : 0 ≤ k2) (gk2 : k2 < p.depth) (gi : 0 ≤ i2) (gi2 : i2 < p.height)
    (gj : 0 ≤ j2) (gj2 : j2 < p.width) (gd : 0 ≤ d2) (gd2 : d2 < p.dim)
    (heq : linearIndex p b h k i j d = linearIndex p b2 h2 k2 i2 j2 d2) :
    b = b2 ∧ h = h2 ∧ k = k2 ∧ i = i2 ∧ j = j2 ∧ d = d2 := by
  rw [linearIndex_eq_horner, linearIndex_eq_horner] at heq
  obtain ⟨q1, q2⟩ := mixed_radix_step p.dim _ _ _ _ (by omega) hd hd2 gd gd2 heq
  unfold flatten at q1
  obtain ⟨q3, q4⟩ := mixed_radix_step p.width _ _ _ _ (by omega) hj hj2 gj gj2 q1
  obtain ⟨q5, q6⟩ := mixed_radix_step p.height _ _ _ _ (by omega) hi hi2 gi gi2 q3
  obtain ⟨q7, q8⟩ := mixed_radix_step p.depth _ _ _ _ (by omega) hk hk2 gk gk2 q5
  obtain ⟨q9, q10⟩ := mixed_radix_step p.heads _ _ _ _ (by omega) hh hh2 gh gh2 q7
  exact ⟨q9, q10, q8, q6, q4, q2⟩

/-! ### Claims about output addressing and enumeration -/

/-- C8: the output addressing map over the dense derived strides is injective on
in-range coordinates: two distinct output coordinates never write to the same
flat offset, for any channels, so their written memory regions are disjoint. -/
theorem C8_write_disjoint (p : NNParams) (b h k i j d b2 h2 k2 i2 j2 d2 : Int)
    (hb : 0 ≤ b) (hb2 : b < p.batch_size) (hh : 0 ≤ h) (hh2 : h < p.heads)
    (hk : 0 ≤ k) (hk2 : k < p.depth) (hi : 0 ≤ i) (hi2 : i < p.height)
    (hj : 0 ≤ j) (hj2 : j < p.width) (hd : 0 ≤ d) (hd2 : d < p.dim)
    (gb : 0 ≤ b2) (gb2 : b2 < p.batch_size) (gh : 0 ≤ h2) (gh2 : h2 < p.heads)
    (gk : 0 ≤ k2) (gk2 : k2 < p.depth) (gi : 0 ≤ i2) (gi2 : i2 < p.height)
    (gj : 0 ≤ j2) (gj2 : j2 < p.width) (gd : 0 ≤ d2) (gd2 : d2 < p.dim)
    (hne : ¬ (b = b2 ∧ h = h2 ∧ k = k2 ∧ i = i2 ∧ j = j2)) :
    linearIndex p b h k i j d ≠ linearIndex p b2 h2 k2 i2 j2 d2 := by
  intro heq
  obtain ⟨e1, e2, e3, e4, e5, e6⟩ := linearIndex_inj p b h k i j d b2 h2 k2 i2 j2 d2
    hb hb2 hh hh2 hk hk2 hi hi2 hj hj2 hd hd2
    gb gb2 gh gh2 gk gk2 gi gi2 gj gj2 gd gd2 heq
  exact hne ⟨e1, e2, e3, e4, e5⟩

/-- C8 witness: with the concrete parameters pA, the output offsets of the
distinct coordinates (0,0,0,0,0) and (0,0,0,0,1) differ. -/
theorem C8_write_disjoint_witness :
    ((0 : Int) ≤ 0 ∧ (0 : Int) < pA.batch_size ∧ (0 : Int) ≤ 0 ∧ (0 : Int) < pA.heads ∧
        (0 : Int) ≤ 0 ∧ (0 : Int) < pA.depth ∧ (0 : Int) ≤ 0 ∧ (0 : Int) < pA.height ∧
        (0 : Int) ≤ 1 ∧ (1 : Int) < pA.width ∧ (0 : Int) ≤ 0 ∧ (0 : Int) < pA.dim ∧
        ¬ ((0 : Int) = 0 ∧ (0 : Int) = 0 ∧ (0 : Int) = 0 ∧ (0 : Int) = 0 ∧ (0 : Int) = 1)) ∧
      linearIndex pA 0 0 0 0 0 0 ≠ linearIndex pA 0 0 0 0 1 0 :=
  ⟨by decide,
    C8_write_disjoint pA 0 0 0 0 0 0 0 0 0 0 1 0
      (by decide) (by decide) (by decide) (by decide) (by decide) (by decide)
      (by decide) (by decide) (by decide) (by decide) (by decide) (by decide)
      (by decide) (by decide) (by decide) (by decide) (by decide) (by decide)
      (by decide) (by decide) (by decide) (by decide) (by decide) (by decide)
      (by decide)⟩

/-- C9: the div and mod decomposition of the flattened range [0, N) is the
two-sided inverse of row-major flattening with j fastest: every flat index
decomposes to an in-range coordinate that flattens back to it, every in-range
coordinate is reached from its flattening, and each in-range coordinate is
reached from exactly one flat index, so every output position is visited
exactly once. -/
theorem C9_enumeration_bijective (p : NNParams) (hB : 0 < p.batch_size)
    (hH : 0 < p.heads) (hD : 0 < p.depth) (hHe : 0 < p.height) (hW : 0 < p.width) :
    (∀ x : Int, 0 ≤ x → x < totalRange p →
      (0 ≤ (decompose p x).b ∧ (decompose p x).b < p.batch_size ∧
        0 ≤ (decompose p x).h ∧ (decompose p x).h < p.heads ∧
        0 ≤ (decompose p x).k ∧ (decompose p x).k < p.depth ∧
        0 ≤ (decompose p x).i ∧ (decompose p x).i < p.height ∧
        0 ≤ (decompose p x).j ∧ (decompose p x).j < p.width ∧
        flatten p (decompose p x).b (decompose p x).h (decompose p x).k
          (decompose p x).i (decompose p x).j = x)) ∧
    (∀ b h k i j : Int, 0 ≤ b → b < p.batch_size → 0 ≤ h → h < p.heads →
      0 ≤ k → k < p.depth → 0 ≤ i → i < p.height → 0 ≤ j → j < p.width →
      decompose p (flatten p b h k i j) = ⟨b, h, k, i, j⟩) ∧
    (∀ b h k i j : Int, 0 ≤ b → b < p.batch_size → 0 ≤ h → h < p.heads →
      0 ≤ k → k < p.depth → 0 ≤ i → i < p.height → 0 ≤ j → j < p.width →
      ∃! x : Int, 0 ≤ x ∧ x < totalRange p ∧ decompose p x = ⟨b, h, k, i, j⟩) := by
  refine ⟨?_, ?_, ?_⟩
  · intro x hx hx2
    exact decompose_bounds p x hB hH hD hHe hW hx hx2
  · intro b h k i j hb hb2 hh hh2 hk hk2 hi hi2 hj hj2
    exact decompose_flatten p b h k i j hh hh2 hk hk2 hi hi2 hj hj2
  · intro b h k i j hb hb2 hh hh2 hk hk2 hi hi2 hj hj2
    obtain ⟨hf1, hf2⟩ := flatten_range p b h k i j hb hb2 hh hh2 hk hk2 hi hi2 hj hj2
    refine ⟨flatten p b h k i j,
      ⟨hf1, hf2, decompose_flatten p b h k i j hh hh2 hk hk2 hi hi2 hj hj2⟩, ?_⟩
    rintro y ⟨hy1, hy2, hy3⟩
    obtain ⟨_, _, _, _, _, _, _, _, _, _, hflat⟩ :=
      decompose_bounds p y hB hH hD hHe hW hy1 hy2
    rw [hy3] at hflat
    exact hflat.symm

/-- C9 witness: the inverse and unique-visit properties at the concrete
parameters pA. -/
theorem C9_enumeration_bijective_witness :
    ((0 : Int) < pA.batch_size ∧ (0 : Int) < pA.heads ∧ (0 : Int) < pA.depth ∧
        (0 : Int) < pA.height ∧ (0 : Int) < pA.width) ∧
      ((∀ x : Int, 0 ≤ x → x < totalRange pA →
        (0 ≤ (decompose pA x).b ∧ (decompose pA x).b < pA.batch_size ∧
          0 ≤ (decompose pA x).h ∧ (decompose pA x).h < pA.heads ∧
          0 ≤ (decompose pA x).k ∧ (decompose pA x).k < pA.depth ∧
          0 ≤ (decompose pA x).i ∧ (decompose pA x).i < pA.height ∧
          0 ≤ (decompose pA x).j ∧ (decompose pA x).j < pA.width ∧
          flatten pA (decompose pA x).b (decompose pA x).h (decompose pA x).k
            (decompose pA x).i (decompose pA x).j = x)) ∧
      (∀ b h k i j : Int, 0 ≤ b → b < pA.batch_size → 0 ≤ h → h < pA.heads →
        0 ≤ k → k < pA.depth → 0 ≤ i → i < pA.height → 0 ≤ j → j < pA.width →
        decompose pA (flatten pA b h k i j) = ⟨b, h, k, i, j⟩) ∧
      (∀ b h k i j : Int, 0 ≤ b → b < pA.batch_size → 0 ≤ h → h < pA.heads →
        0 ≤ k → k < pA.depth → 0 ≤ i → i < pA.height → 0 ≤ j → j < pA.width →
        ∃! x : Int, 0 ≤ x ∧ x < totalRange pA ∧ decompose pA x = ⟨b, h, k, i, j⟩)) :=
  ⟨by decide,
    C9_enumeration_bijective pA (by decide) (by decide) (by decide) (by decide) (by decide)⟩

/-! ### Fold lemmas for the kernel loops -/

theorem foldl_add_eq {M : Type} [AddMonoid M] {ι : Type} (l : List ι) (f : ι → M) :
    ∀ a : M, l.foldl (fun acc x => acc + f x) a = a + (l.map f).sum := by
  induction l with
  | nil => intro a; simp
  | cons x t ih =>
    intro a
    simp only [List.foldl_cons, List.map_cons, List.sum_cons]
    rw [ih (a + f x), add_assoc]

theorem foldl_congr_fun {β ι : Type} (l : List ι) (f g : β → ι → β)
    (h : ∀ acc : β, ∀ x ∈ l, f acc x = g acc x) :
    ∀ a : β, l.foldl f a = l.foldl g a := by
  induction l with
  | nil => intro a; rfl
  | cons x t ih =>
    intro a
    simp only [List.foldl_cons]
    rw [h a x (by simp)]
    exact ih (fun acc y hy => h acc y (by simp [hy])) (g a x)

theorem foldl_option_some {β ι : Type} (l : List ι) (fo : Option β → ι → Option β)
    (f : β → ι → β) (h : ∀ a : β, ∀ x ∈ l, fo (some a) x = some (f a x)) :
    ∀ a0 : β, l.foldl fo (some a0) = some (l.foldl f a0) := by
  induction l with
  | nil => intro a0; rfl
  | cons x t ih =>
    intro a0
    simp only [List.foldl_cons]
    rw [h a0 x (by simp)]
    exact ih (fun a y hy => h a y (by simp [hy])) (f a0 x)

theorem foldl_flatMap {β γ δ : Type} (l : List β) (g : β → List γ) (f : δ → γ → δ) :
    ∀ a : δ, (l.flatMap g).foldl f a = l.foldl (fun acc x => (g x).foldl f acc) a := by
  induction l with
  | nil => intro a; rfl
  | cons x t ih =>
    intro a
    simp only [List.flatMap_cons, List.foldl_append, List.foldl_cons]
    exact ih ((g x).foldl f a)

theorem foldl_update_at {α : Type} (G : Nat → Int) (V : Nat → α) :
    ∀ m : Nat, ∀ out : Int → α, ∀ d : Nat, d < m →
      (∀ y : Nat, y < m → ∀ y2 : Nat, y2 < m → G y = G y2 → y = y2) →
      ((List.range m).foldl (fun o y => Function.update o (G y) (V y)) out) (G d) = V d := by
  intro m
  induction m with
  | zero => intro out d hd; omega
  | succ n ih =>
    intro out d hd hG
    have hr : List.range (n + 1) = List.range n ++ [n] := by
      have hq := List.range_succ n
      simpa [Nat.succ_eq_add_one] using hq
    rw [hr]
    simp only [List.foldl_append, List.foldl_cons, List.foldl_nil]
    by_cases hdn : d = n
    · subst hdn
      rw [Function.update_same]
    · have hne : G d ≠ G n := by
        intro hcontra
        exact hdn (hG d (by omega) n (by omega) hcontra)
      rw [Function.update_noteq hne]
      exact ih out d (by omega) (fun y hy y2 hy2 => hG y (by omega) y2 (by omega))

theorem foldl_update_ne {α : Type} (G : Nat → Int) (V : Nat → α) :
    ∀ m : Nat, ∀ out : Int → α, ∀ a : Int, (∀ y : Nat, y < m → G y ≠ a) →
      ((List.range m).foldl (fun o y => Function.update o (G y) (V y)) out) a = out a := by
  intro m
  induction m with
  | zero => intro out a ha; rfl
  | succ n ih =>
    intro out a ha
    have hr : List.range (n + 1) = List.range n ++ [n] := by
      have hq := List.range_succ n
      simpa [Nat.succ_eq_add_one] using hq
    rw [hr]
    simp only [List.foldl_append, List.foldl_cons, List.foldl_nil]
    rw [Function.update_noteq (ha n (by omega)).symm]
    exact ih out a (fun y hy => ha y (by omega))

theorem channel_write_at {α : Type} [Zero α] [Add α] [Mul α]
    (weights values : Int → α) (p : NNParams) (out : Int → α) (c : Coord5)
    (b h k i j d : Int)
    (cb1 : 0 ≤ c.b) (cb2 : c.b < p.batch_size) (ch1 : 0 ≤ c.h) (ch2 : c.h < p.heads)
    (ck1 : 0 ≤ c.k) (ck2 : c.k < p.depth) (ci1 : 0 ≤ c.i) (ci2 : c.i < p.height)
    (cj1 : 0 ≤ c.j) (cj2 : c.j < p.width)
    (hb : 0 ≤ b) (hb2 : b < p.batch_size) (hh : 0 ≤ h) (hh2 : h < p.heads)
    (hk : 0 ≤ k) (hk2 : k < p.depth) (hi : 0 ≤ i) (hi2 : i < p.height)
    (hj : 0 ≤ j) (hj2 : j < p.width) (hd : 0 ≤ d) (hd2 : d < p.dim) :
    ((List.range p.dim.toNat).foldl
      (fun out2 (dch : Nat) =>
        Function.update out2 (linearIndex p c.b c.h c.k c.i c.j (dch : Int))
          (innerSum weights values p c.b c.h c.k c.i c.j (dch : Int)))
      out) (linearIndex p b h k i j d) =
    if c = ⟨b, h, k, i, j⟩ then innerSum weights values p b h k i j d
    else out (linearIndex p b h k i j d) := by
  by_cases hc : c = (⟨b, h, k, i, j⟩ : Coord5)
  · rw [if_pos hc, hc]
    have hdc : ((d.toNat : Nat) : Int) = d := by omega
    rw [← hdc]
    have hG : ∀ y : Nat, y < p.dim.toNat → ∀ y2 : Nat, y2 < p.dim.toNat →
        linearIndex p b h k i j (y : Int) = linearIndex p b h k i j (y2 : Int) →
        y = y2 := by
      intro y hy y2 hy2 hcontra
      obtain ⟨_, _, _, _, _, e6⟩ := linearIndex_inj p b h k i j (y : Int) b h k i j (y2 : Int)
        hb hb2 hh hh2 hk hk2 hi hi2 hj hj2 (by omega) (by omega)
        hb hb2 hh hh2 hk hk2 hi hi2 hj hj2 (by omega) (by omega) hcontra
      omega
    exact foldl_update_at (fun dch : Nat => linearIndex p b h k i j (dch : Int))
      (fun dch : Nat => innerSum weights values p b h k i j (dch : Int))
      p.dim.toNat out d.toNat (by omega) hG
  · rw [if_neg hc]
    have hmiss : ∀ y : Nat, y < p.dim.toNat →
        linearIndex p c.b c.h c.k c.i c.j (y : Int) ≠ linearIndex p b h k i j d := by
      intro y hy hcontra
      obtain ⟨e1, e2, e3, e4, e5, _⟩ := linearIndex_inj p c.b c.h c.k c.i c.j (y : Int)
        b h k i j d cb1 cb2 ch1 ch2 ck1 ck2 ci1 ci2 cj1 cj2 (by omega) (by omega)
        hb hb2 hh hh2 hk hk2 hi hi2 hj hj2 hd hd2 hcontra
      apply hc
      have heta : c = (⟨c.b, c.h, c.k, c.i, c.j⟩ : Coord5) := rfl
      rw [heta, e1, e2, e3, e4, e5]
    exact foldl_update_ne (fun dch : Nat => linearIndex p c.b c.h c.k c.i c.j (dch : Int))
      (fun dch : Nat => innerSum weights values p c.b c.h c.k c.i c.j (dch : Int))
      p.dim.toNat out (linearIndex p b h k i j d) hmiss

theorem launch_prefix {α : Type} [Zero α] [Add α] [Mul α]
    (weights values out0 : Int → α) (p : NNParams) (b h k i j d : Int)
    (hb : 0 ≤ b) (hb2 : b < p.batch_size) (hh : 0 ≤ h) (hh2 : h < p.heads)
    (hk : 0 ≤ k) (hk2 : k < p.depth) (hi : 0 ≤ i) (hi2 : i < p.height)
    (hj : 0 ≤ j) (hj2 : j < p.width) (hd : 0 ≤ d) (hd2 : d < p.dim) :
    ∀ n : Nat, n ≤ (totalRange p).toNat →
      ((List.range n).foldl
        (fun out (x : Nat) =>
          (List.range p.dim.toNat).foldl
            (fun out2 (dch : Nat) =>
              Function.update out2
                (linearIndex p (decompose p (x : Int)).b (decompose p (x : Int)).h
                  (decompose p (x : Int)).k (decompose p (x : Int)).i
                  (decompose p (x : Int)).j (dch : Int))
                (innerSum weights values p (decompose p (x : Int)).b
                  (decompose p (x : Int)).h (decompose p (x : Int)).k
                  (decompose p (x : Int)).i (decompose p (x : Int)).j (dch : Int)))
            out)
        out0) (linearIndex p b h k i j d) =
      if (flatten p b h k i j).toNat < n then innerSum weights values p b h k i j d
      else out0 (linearIndex p b h k i j d) := by
  obtain ⟨hf1, hf2⟩ := flatten_range p b h k i j hb hb2 hh hh2 hk hk2 hi hi2 hj hj2
  intro n
  induction n with
  | zero =>
    intro hn
    simp
  | succ n ih =>
    intro hn
    have hr : List.range (n + 1) = List.range n ++ [n] := by
      have hq := List.range_succ n
      simpa [Nat.succ_eq_add_one] using hq
    rw [hr]
    simp only [List.foldl_append, List.foldl_cons, List.foldl_nil]
    have hxn : (0 : Int) ≤ (n : Int) := by omega
    have hxN : (n : Int) < totalRange p := by omega
    obtain ⟨cb1, cb2, ch1, ch2, ck1, ck2, ci1, ci2, cj1, cj2, cflat⟩ :=
      decompose_bounds p (n : Int) (by omega) (by omega) (by omega) (by omega) (by omega)
        hxn hxN
    rw [channel_write_at weights values p _ (decompose p (n : Int)) b h k i j d
      cb1 cb2 ch1 ch2 ck1 ck2 ci1 ci2 cj1 cj2 hb hb2 hh hh2 hk hk2 hi hi2 hj hj2 hd hd2]
    by_cases hc : decompose p (n : Int) = (⟨b, h, k, i, j⟩ : Coord5)
    · rw [if_pos hc]
      have hflat_eq : flatten p b h k i j = (n : Int) := by
        rw [hc] at cflat
        exact cflat
      rw [if_pos (by omega)]
    · rw [if_neg hc]
      have hne_n : flatten p b h k i j ≠ (n : Int) := by
        intro hcontra
        apply hc
        rw [← hcontra]
        exact decompose_flatten p b h k i j hh hh2 hk hk2 hi hi2 hj hj2
      rw [ih (by omega)]
      by_cases hlt : (flatten p b h k i j).toNat < n
      · rw [if_pos hlt, if_pos (by omega)]
      · rw [if_neg hlt, if_neg (by omega)]

theorem launch_writes {α : Type} [Zero α] [Add α] [Mul α]
    (weights values out0 : Int → α) (p : NNParams) (b h k i j d : Int)
    (hb : 0 ≤ b) (hb2 : b < p.batch_size) (hh : 0 ≤ h) (hh2 : h < p.heads)
    (hk : 0 ≤ k) (hk2 : k < p.depth) (hi : 0 ≤ i) (hi2 : i < p.height)
    (hj : 0 ≤ j) (hj2 : j < p.width) (hd : 0 ≤ d) (hd2 : d < p.dim) :
    launch weights values out0 p (linearIndex p b h k i j d) =
      innerSum weights values p b h k i j d := by
  obtain ⟨hf1, hf2⟩ := flatten_range p b h k i j hb hb2 hh hh2 hk hk2 hi hi2 hj hj2
  have hres := launch_prefix weights values out0 p b h k i j d
    hb hb2 hh hh2 hk hk2 hi hi2 hj hj2 hd hd2 (totalRange p).toNat (le_refl _)
  rw [if_pos (by omega)] at hres
  exact hres

/-! ### Sum shape lemmas and the aggregation claims -/

theorem triple_foldl_sum {α : Type} [AddMonoid α] (l1 l2 l3 : List Int)
    (f : Int → Int → Int → α) :
    l1.foldl
      (fun acc xk =>
        l2.foldl
          (fun acc2 xi => l3.foldl (fun acc3 xj => acc3 + f xk xi xj) acc2) acc)
      0 =
    (l1.map (fun xk =>
      (l2.map (fun xi => (l3.map (fun xj => f xk xi xj)).sum)).sum)).sum := by
  have h2 : ∀ xk : Int, ∀ acc : α,
      l2.foldl (fun acc2 xi => l3.foldl (fun acc3 xj => acc3 + f xk xi xj) acc2) acc =
        acc + (l2.map (fun xi => (l3.map (fun xj => f xk xi xj)).sum)).sum := by
    intro xk acc
    rw [foldl_congr_fun l2 _
      (fun acc2 xi => acc2 + (l3.map (fun xj => f xk xi xj)).sum)
      (fun acc2 xi _ => foldl_add_eq l3 (fun xj => f xk xi xj) acc2) acc]
    exact foldl_add_eq l2 _ acc
  rw [foldl_congr_fun l1 _
    (fun acc xk => acc + (l2.map (fun xi => (l3.map (fun xj => f xk xi xj)).sum)).sum)
    (fun acc xk _ => h2 xk acc) 0]
  rw [foldl_add_eq l1 _ 0, zero_add]

theorem list_sum_stepFinset {α : Type} [AddCommMonoid α] (lo hi s : Int) (hs : 0 < s)
    (f : Int → α) :
    ((strideLoop lo hi s).map f).sum = Finset.sum (stepFinset lo hi s) f := by
  rw [stepFinset_eq_toFinset lo hi s hs]
  exact (List.sum_toFinset f (nodup_strideLoop lo hi s hs)).symm

theorem innerSum_eq_product_foldl {α : Type} [Zero α] [Add α] [Mul α]
    (weights values : Int → α) (p : NNParams) (b h k i j d : Int) :
    innerSum weights values p b h k i j d =
      (productList weights values p b h k i j d).foldl (fun acc t => acc + t) 0 := by
  unfold innerSum productList
  rw [foldl_flatMap]
  refine foldl_congr_fun _ _ _ ?_ (0 : α)
  intro acc xk _
  rw [foldl_flatMap]
  refine foldl_congr_fun _ _ _ ?_ acc
  intro acc2 xi _
  rw [List.foldl_map]

/-- C7: each output element is produced by accumulating into a single
accumulator of the same scalar type, initialized to zero, adding the weight
value products in the fixed row-major window order (axis 0 outer, axis 2
inner): the written element equals the ordered left fold of the product list in
input precision, for an arbitrary scalar structure with zero, addition and
multiplication and no commutativity or associativity assumed. -/
theorem C7_accumulation_order {α : Type} [Zero α] [Add α] [Mul α]
    (weights values out0 : Int → α) (p : NNParams) (b h k i j d : Int)
    (hb : 0 ≤ b) (hb2 : b < p.batch_size) (hh : 0 ≤ h) (hh2 : h < p.heads)
    (hk : 0 ≤ k) (hk2 : k < p.depth) (hi : 0 ≤ i) (hi2 : i < p.height)
    (hj : 0 ≤ j) (hj2 : j < p.width) (hd : 0 ≤ d) (hd2 : d < p.dim) :
    launch weights values out0 p (linearIndex p b h k i j d) =
      (productList weights values p b h k i j d).foldl (fun acc t => acc + t) 0 := by
  rw [launch_writes weights values out0 p b h k i j d
    hb hb2 hh hh2 hk hk2 hi hi2 hj hj2 hd hd2]
  exact innerSum_eq_product_foldl weights values p b h k i j d

/-- C7 witness: the fold equation evaluated at coordinate (0,0,0,0,0), channel
0 of the concrete parameters pA with concrete buffers. -/
theorem C7_accumulation_order_witness :
    ((0 : Int) ≤ 0 ∧ (0 : Int) < pA.batch_size ∧ (0 : Int) ≤ 0 ∧ (0 : Int) < pA.heads ∧
        (0 : Int) ≤ 0 ∧ (0 : Int) < pA.depth ∧ (0 : Int) ≤ 0 ∧ (0 : Int) < pA.height ∧
        (0 : Int) ≤ 0 ∧ (0 : Int) < pA.width ∧ (0 : Int) ≤ 0 ∧ (0 : Int) < pA.dim) ∧
      launch wId vOne outZero pA (linearIndex pA 0 0 0 0 0 0) =
        (productList wId vOne pA 0 0 0 0 0 0).foldl (fun acc t => acc + t) 0 :=
  ⟨by decide,
    C7_accumulation_order wId vOne outZero pA 0 0 0 0 0 0
      (by decide) (by decide) (by decide) (by decide) (by decide) (by decide)
      (by decide) (by decide) (by decide) (by decide) (by decide) (by decide)⟩

/-- C1: for every in-range output coordinate (b,h,k,i,j) and channel d, the
kernel writes output[b,h,k,i,j,d] equal to the sum over the three stepped
per-axis windows of weights[b,h,k,i,j,enum(xk,xi,xj)] * values[b,h,xk,xi,xj,d],
with enum the row-major linearization of the per-axis offsets from window start
divided by dilation, axis 0 slowest and axis 2 fastest. -/
theorem C1_output_formula {α : Type} [AddCommMonoid α] [Mul α]
    (weights values out0 : Int → α) (p : NNParams) (b h k i j d : Int)
    (hpd0 : 1 ≤ p.dilation_0) (hpd1 : 1 ≤ p.dilation_1) (hpd2 : 1 ≤ p.dilation_2)
    (hb : 0 ≤ b) (hb2 : b < p.batch_size) (hh : 0 ≤ h) (hh2 : h < p.heads)
    (hk : 0 ≤ k) (hk2 : k < p.depth) (hi : 0 ≤ i) (hi2 : i < p.height)
    (hj : 0 ≤ j) (hj2 : j < p.width) (hd : 0 ≤ d) (hd2 : d < p.dim) :
    launch weights values out0 p (linearIndex p b h k i j d) =
      Finset.sum (stepFinset (window_start_0 p k) (window_end_0 p k) p.dilation_0)
        (fun xk =>
          Finset.sum (stepFinset (window_start_1 p i) (window_end_1 p i) p.dilation_1)
            (fun xi =>
              Finset.sum
                (stepFinset (window_start_2 p j) (window_end_2 p j) p.dilation_2)
                (fun xj =>
                  weights (weightsIndex p b h k i j
                    (enum p (window_start_0 p k) (window_start_1 p i)
                      (window_start_2 p j) xk xi xj)) *
                    values (valuesIndex p b h d xk xi xj)))) := by
  rw [launch_writes weights values out0 p b h k i j d
    hb hb2 hh hh2 hk hk2 hi hi2 hj hj2 hd hd2]
  unfold innerSum
  rw [triple_foldl_sum]
  rw [list_sum_stepFinset (window_start_0 p k) (window_end_0 p k) p.dilation_0 (by omega)]
  apply Finset.sum_congr rfl
  intro xk _
  rw [list_sum_stepFinset (window_start_1 p i) (window_end_1 p i) p.dilation_1 (by omega)]
  apply Finset.sum_congr rfl
  intro xi _
  rw [list_sum_stepFinset (window_start_2 p j) (window_end_2 p j) p.dilation_2 (by omega)]

/-- C1 witness: the sum formula evaluated at coordinate (0,0,1,1,1), channel 0
of the concrete parameters pA with concrete buffers. -/
theorem C1_output_formula_witness :
    ((1 : Int) ≤ pA.dilation_0 ∧ (1 : Int) ≤ pA.dilation_1 ∧ (1 : Int) ≤ pA.dilation_2 ∧
        (0 : Int) ≤ 0 ∧ (0 : Int) < pA.batch_size ∧ (0 : Int) ≤ 0 ∧ (0 : Int) < pA.heads ∧
        (0 : Int) ≤ 1 ∧ (1 : Int) < pA.depth ∧ (0 : Int) ≤ 1 ∧ (1 : Int) < pA.height ∧
        (0 : Int) ≤ 1 ∧ (1 : Int) < pA.width ∧ (0 : Int) ≤ 0 ∧ (0 : Int) < pA.dim) ∧
      launch wId vOne outZero pA (linearIndex pA 0 0 1 1 1 0) =
        Finset.sum (stepFinset (window_start_0 pA 1) (window_end_0 pA 1) pA.dilation_0)
          (fun xk =>
            Finset.sum (stepFinset (window_start_1 pA 1) (window_end_1 pA 1) pA.dilation_1)
              (fun xi =>
                Finset.sum
                  (stepFinset (window_start_2 pA 1) (window_end_2 pA 1) pA.dilation_2)
                  (fun xj =>
                    wId (weightsIndex pA 0 0 1 1 1
                      (enum pA (window_start_0 pA 1) (window_start_1 pA 1)
                        (window_start_2 pA 1) xk xi xj)) *
                      vOne (valuesIndex pA 0 0 0 xk xi xj)))) :=
  ⟨by decide,
    C1_output_formula wId vOne outZero pA 0 0 1 1 1 0
      (by decide) (by decide) (by decide) (by decide) (by decide) (by decide)
      (by decide) (by decide) (by decide) (by decide) (by decide) (by decide)
      (by decide) (by decide) (by decide)⟩

/-! ### Access safety lemmas and claims -/

theorem axis0_sample_bounds (p : NNParams) (k : Int) (hp : 0 ≤ k) (hpL : k < p.depth)
    (hd : 1 ≤ p.dilation_0) (hk : 1 ≤ p.kernel_size_0) :
    ∀ x ∈ strideLoop (window_start_0 p k) (window_end_0 p k) p.dilation_0,
      0 ≤ x ∧ x < p.depth ∧ 0 ≤ (x - window_start_0 p k) / p.dilation_0 ∧
        (x - window_start_0 p k) / p.dilation_0 < p.kernel_size_0 := by
  intro x hx
  have hns : 0 ≤ neighborhood_size_0 p := by
    unfold neighborhood_size_0
    omega
  unfold window_start_0 window_end_0 at hx
  unfold window_start_0
  exact window_sample_bounds k p.depth p.kernel_size_0 (neighborhood_size_0 p)
    p.dilation_0 p.is_causal_0 x hd hp hpL hns hk hx

theorem axis1_sample_bounds (p : NNParams) (i : Int) (hp : 0 ≤ i) (hpL : i < p.height)
    (hd : 1 ≤ p.dilation_1) (hk : 1 ≤ p.kernel_size_1) :
    ∀ x ∈ strideLoop (window_start_1 p i) (window_end_1 p i) p.dilation_1,
      0 ≤ x ∧ x < p.height ∧ 0 ≤ (x - window_start_1 p i) / p.dilation_1 ∧
        (x - window_start_1 p i) / p.dilation_1 < p.kernel_size_1 := by
  intro x hx
  have hns : 0 ≤ neighborhood_size_1 p := by
    unfold neighborhood_size_1
    omega
  unfold window_start_1 window_end_1 at hx
  unfold window_start_1
  exact window_sample_bounds i p.height p.kernel_size_1 (neighborhood_size_1 p)
    p.dilation_1 p.is_causal_1 x hd hp hpL hns hk hx

theorem axis2_sample_bounds (p : NNParams) (j : Int) (hp : 0 ≤ j) (hpL : j < p.width)
    (hd : 1 ≤ p.dilation_2) (hk : 1 ≤ p.kernel_size_2) :
    ∀ x ∈ strideLoop (window_start_2 p j) (window_end_2 p j) p.dilation_2,
      0 ≤ x ∧ x < p.width ∧ 0 ≤ (x - window_start_2 p j) / p.dilation_2 ∧
        (x - window_start_2 p j) / p.dilation_2 < p.kernel_size_2 := by
  intro x hx
  have hns : 0 ≤ neighborhood_size_2 p := by
    unfold neighborhood_size_2
    omega
  unfold window_start_2 window_end_2 at hx
  unfold window_start_2
  exact window_sample_bounds j p.width p.kernel_size_2 (neighborhood_size_2 p)
    p.dilation_2 p.is_causal_2 x hd hp hpL hns hk hx

theorem enum_range (p : NNParams) (a bb c : Int)
    (ha : 0 ≤ a) (ha2 : a < p.kernel_size_0) (hb : 0 ≤ bb) (hb2 : bb < p.kernel_size_1)
    (hc : 0 ≤ c) (hc2 : c < p.kernel_size_2) :
    0 ≤ a * (p.kernel_size_1 * p.kernel_size_2) + bb * p.kernel_size_2 + c ∧
      a * (p.kernel_size_1 * p.kernel_size_2) + bb * p.kernel_size_2 + c <
        kernel_volume p := by
  have h1 := horner_step bb p.kernel_size_1 c p.kernel_size_2 hb hb2 hc hc2 (by omega)
  have hpos : (0 : Int) < p.kernel_size_1 * p.kernel_size_2 :=
    mul_pos (by omega) (by omega)
  have h2 := horner_step a p.kernel_size_0 (bb * p.kernel_size_2 + c)
    (p.kernel_size_1 * p.kernel_size_2) ha ha2 h1.1 h1.2 hpos
  unfold kernel_volume
  have heq : p.kernel_size_0 * (p.kernel_size_1 * p.kernel_size_2) =
      p.kernel_size_0 * p.kernel_size_1 * p.kernel_size_2 := by ring
  omega

/-- C6: under the caller preconditions, every logical index produced inside the
kernel loops is in range: all window samples lie in [0, axis_extent) on each
axis, the weight sub-index enum lies in [0, kernel_volume), the flat output
offset lies inside the output buffer, and the bounds-checked (Option-returning)
accumulation never takes its out-of-bounds branch: it returns exactly some of
the unchecked accumulation. -/
theorem C6_bounds_checked {α : Type} [Zero α] [Add α] [Mul α]
    (weights values : Int → α) (p : NNParams) (b h k i j d : Int)
    (hks0 : 1 ≤ p.kernel_size_0) (hks0L : p.kernel_size_0 ≤ p.depth)
    (hks1 : 1 ≤ p.kernel_size_1) (hks1L : p.kernel_size_1 ≤ p.height)
    (hks2 : 1 ≤ p.kernel_size_2) (hks2L : p.kernel_size_2 ≤ p.width)
    (hpd0 : 1 ≤ p.dilation_0) (hpd1 : 1 ≤ p.dilation_1) (hpd2 : 1 ≤ p.dilation_2)
    (hb : 0 ≤ b) (hb2 : b < p.batch_size) (hh : 0 ≤ h) (hh2 : h < p.heads)
    (hk : 0 ≤ k) (hk2 : k < p.depth) (hi : 0 ≤ i) (hi2 : i < p.height)
    (hj : 0 ≤ j) (hj2 : j < p.width) (hd : 0 ≤ d) (hd2 : d < p.dim) :
    (∀ xk ∈ strideLoop (window_start_0 p k) (window_end_0 p k) p.dilation_0,
      0 ≤ xk ∧ xk < p.depth) ∧
    (∀ xi ∈ strideLoop (window_start_1 p i) (window_end_1 p i) p.dilation_1,
      0 ≤ xi ∧ xi < p.height) ∧
    (∀ xj ∈ strideLoop (window_start_2 p j) (window_end_2 p j) p.dilation_2,
      0 ≤ xj ∧ xj < p.width) ∧
    (∀ xk ∈ strideLoop (window_start_0 p k) (window_end_0 p k) p.dilation_0,
      ∀ xi ∈ strideLoop (window_start_1 p i) (window_end_1 p i) p.dilation_1,
        ∀ xj ∈ strideLoop (window_start_2 p j) (window_end_2 p j) p.dilation_2,
          0 ≤ enum p (window_start_0 p k) (window_start_1 p i) (window_start_2 p j)
              xk xi xj ∧
            enum p (window_start_0 p k) (window_start_1 p i) (window_start_2 p j)
              xk xi xj < kernel_volume p) ∧
    (0 ≤ linearIndex p b h k i j d ∧
      linearIndex p b h k i j d < totalRange p * p.dim) ∧
    innerSumChecked weights values p b h k i j d =
      some (innerSum weights values p b h k i j d) := by
  have ax0 := axis0_sample_bounds p k hk hk2 hpd0 hks0
  have ax1 := axis1_sample_bounds p i hi hi2 hpd1 hks1
  have ax2 := axis2_sample_bounds p j hj hj2 hpd2 hks2
  have henum : ∀ xk ∈ strideLoop (window_start_0 p k) (window_end_0 p k) p.dilation_0,
      ∀ xi ∈ strideLoop (window_start_1 p i) (window_end_1 p i) p.dilation_1,
        ∀ xj ∈ strideLoop (window_start_2 p j) (window_end_2 p j) p.dilation_2,
          0 ≤ enum p (window_start_0 p k) (window_start_1 p i) (window_start_2 p j)
              xk xi xj ∧
            enum p (window_start_0 p k) (window_start_1 p i) (window_start_2 p j)
              xk xi xj < kernel_volume p := by
    intro xk hxk xi hxi xj hxj
    obtain ⟨_, _, q1, q2⟩ := ax0 xk hxk
    obtain ⟨_, _, q3, q4⟩ := ax1 xi hxi
    obtain ⟨_, _, q5, q6⟩ := ax2 xj hxj
    unfold enum
    exact enum_range p _ _ _ q1 q2 q3 q4 q5 q6
  have hout : 0 ≤ linearIndex p b h k i j d ∧
      linearIndex p b h k i j d < totalRange p * p.dim := by
    obtain ⟨hf1, hf2⟩ := flatten_range p b h k i j hb hb2 hh hh2 hk hk2 hi hi2 hj hj2
    have hstep := horner_step (flatten p b h k i j) (totalRange p) d p.dim hf1 hf2 hd hd2
      (by omega)
    rw [linearIndex_eq_horner]
    exact hstep
  refine ⟨fun xk hxk => ⟨(ax0 xk hxk).1, (ax0 xk hxk).2.1⟩,
    fun xi hxi => ⟨(ax1 xi hxi).1, (ax1 xi hxi).2.1⟩,
    fun xj hxj => ⟨(ax2 xj hxj).1, (ax2 xj hxj).2.1⟩, henum, hout, ?_⟩
  unfold innerSumChecked innerSum
  refine foldl_option_some _ _ _ ?_ 0
  intro a xk hxk
  refine foldl_option_some _ _ _ ?_ a
  intro a2 xi hxi
  refine foldl_option_some _ _ _ ?_ a2
  intro a3 xj hxj
  obtain ⟨hxk1, hxk2, _, _⟩ := ax0 xk hxk
  obtain ⟨hxi1, hxi2, _, _⟩ := ax1 xi hxi
  obtain ⟨hxj1, hxj2, _, _⟩ := ax2 xj hxj
  obtain ⟨he1, he2⟩ := henum xk hxk xi hxi xj hxj
  have hw : readWeight weights p b h k i j
      (enum p (window_start_0 p k) (window_start_1 p i) (window_start_2 p j) xk xi xj) =
      some (weights (weightsIndex p b h k i j
        (enum p (window_start_0 p k) (window_start_1 p i) (window_start_2 p j)
          xk xi xj))) := by
    unfold readWeight
    rw [if_pos]
    exact ⟨hb, hb2, hh, hh2, hk, hk2, hi, hi2, hj, hj2, he1, he2⟩
  have hv : readValue values p b h d xk xi xj =
      some (values (valuesIndex p b h d xk xi xj)) := by
    unfold readValue
    rw [if_pos]
    exact ⟨hb, hb2, hh, hh2, hxk1, hxk2, hxi1, hxi2, hxj1, hxj2, hd, hd2⟩
  rw [hw, hv]
  rfl

/-- C6 witness: the checked accumulation at coordinate (0,0,0,0,0), channel 0
of the concrete parameters pA returns some of the unchecked accumulation. -/
theorem C6_bounds_checked_witness :
    ((1 : Int) ≤ pA.kernel_size_0 ∧ pA.kernel_size_0 ≤ pA.depth ∧
        (1 : Int) ≤ pA.kernel_size_1 ∧ pA.kernel_size_1 ≤ pA.height ∧
        (1 : Int) ≤ pA.kernel_size_2 ∧ pA.kernel_size_2 ≤ pA.width ∧
        (1 : Int) ≤ pA.dilation_0 ∧ (1 : Int) ≤ pA.dilation_1 ∧ (1 : Int) ≤ pA.dilation_2 ∧
        (0 : Int) ≤ 0 ∧ (0 : Int) < pA.batch_size ∧ (0 : Int) ≤ 0 ∧ (0 : Int) < pA.heads ∧
        (0 : Int) ≤ 0 ∧ (0 : Int) < pA.depth ∧ (0 : Int) ≤ 0 ∧ (0 : Int) < pA.height ∧
        (0 : Int) ≤ 0 ∧ (0 : Int) < pA.width ∧ (0 : Int) ≤ 0 ∧ (0 : Int) < pA.dim) ∧
      ((∀ xk ∈ strideLoop (window_start_0 pA 0) (window_end_0 pA 0) pA.dilation_0,
          0 ≤ xk ∧ xk < pA.depth) ∧
        (∀ xi ∈ strideLoop (window_start_1 pA 0) (window_end_1 pA 0) pA.dilation_1,
          0 ≤ xi ∧ xi < pA.height) ∧
        (∀ xj ∈ strideLoop (window_start_2 pA 0) (window_end_2 pA 0) pA.dilation_2,
          0 ≤ xj ∧ xj < pA.width) ∧
        (∀ xk ∈ strideLoop (window_start_0 pA 0) (window_end_0 pA 0) pA.dilation_0,
          ∀ xi ∈ strideLoop (window_start_1 pA 0) (window_end_1 pA 0) pA.dilation_1,
            ∀ xj ∈ strideLoop (window_start_2 pA 0) (window_end_2 pA 0) pA.dilation_2,
              0 ≤ enum pA (window_start_0 pA 0) (window_start_1 pA 0) (window_start_2 pA 0)
                  xk xi xj ∧
                enum pA (window_start_0 pA 0) (window_start_1 pA 0) (window_start_2 pA 0)
                  xk xi xj < kernel_volume pA) ∧
        (0 ≤ linearIndex pA 0 0 0 0 0 0 ∧
          linearIndex pA 0 0 0 0 0 0 < totalRange pA * pA.dim) ∧
        innerSumChecked wId vOne pA 0 0 0 0 0 0 =
          some (innerSum wId vOne pA 0 0 0 0 0 0)) :=
  ⟨by decide,
    C6_bounds_checked wId vOne pA 0 0 0 0 0 0
      (by decide) (by decide) (by decide) (by decide) (by decide) (by decide)
      (by decide) (by decide) (by decide) (by decide) (by decide) (by decide)
      (by decide) (by decide) (by decide) (by decide) (by decide) (by decide)
      (by decide) (by decide) (by decide)⟩

/-- C10: the kernel addresses the last weight dimension with an implicit stride
of exactly 1: every weight access offset is the five-stride base offset plus the
enum value itself, and the accumulation reads the weight row only through the
contiguous offsets base + [0, kernel_volume): two weight buffers that agree on
that contiguous row produce the same accumulated element, whatever the five
caller-supplied leading strides are. The spec never states this last-dimension
contiguity constraint. -/
theorem C10_weights_unit_stride {α : Type} [Zero α] [Add α] [Mul α]
    (weights1 weights2 values : Int → α) (p : NNParams) (b h k i j d : Int)
    (hks0 : 1 ≤ p.kernel_size_0) (hks1 : 1 ≤ p.kernel_size_1)
    (hks2 : 1 ≤ p.kernel_size_2) (hpd0 : 1 ≤ p.dilation_0) (hpd1 : 1 ≤ p.dilation_1)
    (hpd2 : 1 ≤ p.dilation_2) (hk : 0 ≤ k) (hk2 : k < p.depth) (hi : 0 ≤ i)
    (hi2 : i < p.height) (hj : 0 ≤ j) (hj2 : j < p.width)
    (hagree : ∀ e : Int, 0 ≤ e → e < kernel_volume p →
      weights1 (weightsIndex p b h k i j e) = weights2 (weightsIndex p b h k i j e)) :
    (∀ e : Int, weightsIndex p b h k i j e = weightsIndex p b h k i j 0 + e) ∧
      innerSum weights1 values p b h k i j d =
        innerSum weights2 values p b h k i j d := by
  constructor
  · intro e
    unfold weightsIndex
    ring
  · unfold innerSum
    refine foldl_congr_fun _ _ _ ?_ 0
    intro acc xk hxk
    refine foldl_congr_fun _ _ _ ?_ acc
    intro acc2 xi hxi
    refine foldl_congr_fun _ _ _ ?_ acc2
    intro acc3 xj hxj
    obtain ⟨_, _, q1, q2⟩ := axis0_sample_bounds p k hk hk2 hpd0 hks0 xk hxk
    obtain ⟨_, _, q3, q4⟩ := axis1_sample_bounds p i hi hi2 hpd1 hks1 xi hxi
    obtain ⟨_, _, q5, q6⟩ := axis2_sample_bounds p j hj hj2 hpd2 hks2 xj hxj
    have he : 0 ≤ enum p (window_start_0 p k) (window_start_1 p i) (window_start_2 p j)
          xk xi xj ∧
        enum p (window_start_0 p k) (window_start_1 p i) (window_start_2 p j)
          xk xi xj < kernel_volume p := by
      unfold enum
      exact enum_range p _ _ _ q1 q2 q3 q4 q5 q6
    rw [hagree _ he.1 he.2]

/-- C10 witness: at coordinate (0,0,0,0,0) of pA, the buffers wId and wAlt agree
on the single contiguous weight row offset and yield the same accumulation,
and the enum coefficient is exactly one. -/
theorem C10_weights_unit_stride_witness :
    ((1 : Int) ≤ pA.kernel_size_0 ∧ (1 : Int) ≤ pA.kernel_size_1 ∧
        (1 : Int) ≤ pA.kernel_size_2 ∧ (1 : Int) ≤ pA.dilation_0 ∧
        (1 : Int) ≤ pA.dilation_1 ∧ (1 : Int) ≤ pA.dilation_2 ∧
        (0 : Int) ≤ 0 ∧ (0 : Int) < pA.depth ∧ (0 : Int) ≤ 0 ∧ (0 : Int) < pA.height ∧
        (0 : Int) ≤ 0 ∧ (0 : Int) < pA.width ∧
        (∀ e : Int, 0 ≤ e → e < kernel_volume pA →
          wId (weightsIndex pA 0 0 0 0 0 e) = wAlt (weightsIndex pA 0 0 0 0 0 e))) ∧
      ((∀ e : Int, weightsIndex pA 0 0 0 0 0 e = weightsIndex pA 0 0 0 0 0 0 + e) ∧
        innerSum wId vOne pA 0 0 0 0 0 0 = innerSum wAlt vOne pA 0 0 0 0 0 0) := by
  have hagree : ∀ e : Int, 0 ≤ e → e < kernel_volume pA →
      wId (weightsIndex pA 0 0 0 0 0 e) = wAlt (weightsIndex pA 0 0 0 0 0 e) := by
    intro e he1 he2
    have hkv : kernel_volume pA = 1 := by decide
    rw [hkv] at he2
    have he0 : e = 0 := by omega
    subst he0
    decide
  exact ⟨⟨by decide, by decide, by decide, by decide, by decide, by decide,
      by decide, by decide, by decide, by decide, by decide, by decide, hagree⟩,
    C10_weights_unit_stride wId wAlt vOne pA 0 0 0 0 0 0
      (by decide) (by decide) (by decide) (by decide) (by decide) (by decide)
      (by decide) (by decide) (by decide) (by decide) (by decide) (by decide) hagree⟩
